import Mathlib

/-!
# ramsql: `CREATE TABLE` parsing and execution

A shallow embedding of `engine/parser/create.go` (`parseCreate`, `parseTable`,
`parsePrimaryKey`) and of `engine/table.go` (`Table`, `Tables.ByAlias`,
`createTableExecutor`, `tableAlias`), followed by theorems about them.

Conventions of the embedding.

* The parser's mutable cursor `p.index` is threaded explicitly: every routine takes the
  cursor and returns the new cursor next to its value.
* A Go `for` loop whose termination is not evident becomes a function with a `fuel`
  argument, one unit per iteration; `Result.outOfFuel` means the loop was still running
  when the fuel ran out.
* `*Decl` pointers are replaced by values. The source attaches a node to its parent and
  keeps adding children to the node afterwards; here a node is attached once it is
  complete. Every early `return nil, err` discards the tree, so the trees returned on
  success are the same.
-/

set_option linter.dupNamespace false

namespace Ramsql

namespace Parser

/-- Modelled from the spec: the enumerated token classes (the lexer's constants are not
part of the sources at hand). `Other` stands for every token class that the routines
below never name. -/
inductive TokenKind where
  | CreateToken | TableToken | IfToken | NotToken | ExistsToken | NullToken
  | PrimaryToken | KeyToken | UniqueToken | AutoincrementToken
  | WithToken | TimeToken | ZoneToken | DefaultToken
  | FalseToken | StringToken | NumberToken | LocalTimestampToken
  | BracketOpeningToken | BracketClosingToken | CommaToken | AsToken
  | Other (code : Nat)
  deriving DecidableEq, Repr

open TokenKind

/-- Modelled from the spec: a token is a pair of a kind and the original source text. -/
structure Token where
  Token : TokenKind
  Lexeme : String
  deriving DecidableEq, Repr

/-- Modelled from the spec: the generic parse-tree node, a token kind, a lexeme and the
ordered children. -/
structure Decl where
  Token : TokenKind
  Lexeme : String
  Decl : List Decl
  deriving Repr

/-- Modelled from the spec: `NewDecl` wraps a token in a node without children. -/
def NewDecl (t : Token) : Decl := ⟨t.Token, t.Lexeme, []⟩

/-- Modelled from the spec: `Add` appends a child, keeping insertion order. -/
def Decl.Add (d child : Parser.Decl) : Parser.Decl := { d with Decl := d.Decl ++ [child] }

/-- Instruction as built by `parseCreate`: the list of top-level declarations. -/
structure Instruction where
  Decls : List Decl
  deriving Repr

/-- Errors of the parser. `message` carries the text of a `fmt.Errorf` of the source;
the two others are the error kinds the spec gives for the cursor primitives. -/
inductive ParseError where
  | unexpectedEndOfInput
  | syntaxError (position : Nat) (lexeme : String)
  | message (text : String)
  deriving DecidableEq, Repr

/-- Outcome of a parsing routine: a value, a returned error, a Go run-time panic (slice
index out of range), or a loop that has not finished within the fuel. -/
inductive Result (α : Type) where
  | ok (a : α)
  | error (e : ParseError)
  | panic
  | outOfFuel
  deriving Repr

/-- Sequencing of outcomes: everything but `ok` ends the routine. -/
def Result.bind {α β : Type} (r : Result α) (f : α → Result β) : Result β :=
  match r with
  | .ok a => f a
  | .error e => .error e
  | .panic => .panic
  | .outOfFuel => .outOfFuel

instance : Monad Result where
  pure := Result.ok
  bind := Result.bind

/-- An error returned by a routine that has no loop of its own. -/
def Result.ofExcept {α : Type} : Except ParseError α × Nat → Result (α × Nat)
  | (.ok a, j) => .ok (a, j)
  | (.error e, _) => .error e

/-! ### Cursor primitives (section 4.1 of the spec) -/

/-- Modelled from the spec: `current()` returns the token at the cursor and fails with
`UnexpectedEndOfInput` if the cursor is past the end. -/
def cur (tokens : List Token) (index : Nat) : Result Token :=
  match tokens[index]? with
  | some t => .ok t
  | none => .error .unexpectedEndOfInput

/-- Modelled from the spec: `hasNext()` is true iff a token exists at cursor+1. -/
def hasNext (tokens : List Token) (index : Nat) : Bool :=
  decide (index + 1 < tokens.length)

/-- Modelled from the spec: `advance()` moves the cursor forward by one and fails with
`UnexpectedEndOfInput` if none remain. -/
def next (tokens : List Token) (index : Nat) : Result Nat :=
  if hasNext tokens index then .ok (index + 1) else .error .unexpectedEndOfInput

/-- Modelled from the spec: `is(kinds...)`, a non-consuming test of the current token. -/
def is (tokens : List Token) (index : Nat) (kinds : List TokenKind) : Result Bool :=
  (cur tokens index).bind fun t => .ok (decide (t.Token ∈ kinds))

/-- Modelled from the spec: `isNot(kinds...)`, the negation of `is`. -/
def isNot (tokens : List Token) (index : Nat) (kinds : List TokenKind) : Result Bool :=
  (is tokens index kinds).bind fun b => .ok (!b)

/-- Modelled from the spec: `syntaxError()` carries the current lexeme (empty past the
end) and the cursor position. -/
def syntaxError (tokens : List Token) (index : Nat) : ParseError :=
  .syntaxError index ((tokens[index]?.map fun t => t.Lexeme).getD "")

/-- Modelled from the spec: `isNext(kind)` looks at cursor+1 without consuming and fails
if that token is absent or of another kind. -/
def isNext (tokens : List Token) (index : Nat) (kind : TokenKind) : Result Token :=
  match tokens[index + 1]? with
  | some t => if t.Token = kind then .ok t else .error (syntaxError tokens index)
  | none => .error .unexpectedEndOfInput

/-- Modelled from the spec: `consumeToken(expectedKinds...)` wraps the current token in a
new `Decl` and advances the cursor if its kind is expected, and fails with `SyntaxError`
otherwise. -/
def consumeToken (tokens : List Token) (index : Nat) (kinds : List TokenKind) :
    Result (Decl × Nat) :=
  (cur tokens index).bind fun t =>
    if t.Token ∈ kinds then .ok (NewDecl t, index + 1)
    else .error (syntaxError tokens index)

/-- The shared routines of the parser that `create.go` calls and that are not part of
the sources at hand, taken as parameters: each one reads the tokens from the cursor and
returns its declaration or error together with the cursor it leaves. `toLower` stands for
Go's `strings.ToLower`. -/
structure Shared where
  parseAttribute : List Token → Nat → Except ParseError Decl × Nat
  parseQuotedToken : List Token → Nat → Except ParseError Decl × Nat
  parseType : List Token → Nat → Except ParseError Decl × Nat
  toLower : String → String

/-! ### `parsePrimaryKey` (create.go, lines 209-242) -/

/-- The `for` loop of `parsePrimaryKey` (lines 226-239): a column name, then a comma
(go on) or a closing bracket (stop). The names are not kept. -/
def primaryKeyLoop (sh : Shared) (tokens : List Token) : Nat → Nat → Result Nat
  | 0, _ => .outOfFuel
  | fuel + 1, index =>
    (Result.ofExcept (sh.parseQuotedToken tokens index)).bind fun (_, index) =>
    (consumeToken tokens index [CommaToken, BracketClosingToken]).bind fun (d, index) =>
    if d.Token = BracketClosingToken then .ok index
    else primaryKeyLoop sh tokens fuel index

/-- Embedding of `parser.parsePrimaryKey`. -/
def parsePrimaryKey (sh : Shared) (fuel : Nat) (tokens : List Token) (index : Nat) :
    Result (Decl × Nat) :=
  (consumeToken tokens index [PrimaryToken]).bind fun (primaryDecl, index) =>
  (consumeToken tokens index [KeyToken]).bind fun (keyDecl, index) =>
  (consumeToken tokens index [BracketOpeningToken]).bind fun (_, index) =>
  (primaryKeyLoop sh tokens fuel index).bind fun index =>
  .ok (primaryDecl.Add keyDecl, index)

/-! ### `parseTable` (create.go, lines 39-207) -/

/-- The column being parsed: `newAttribute` as `parseQuotedToken` returned it,
`newAttributeType` (the child added at line 112, which line 173 still extends) and the
constraint nodes added to `newAttribute` after the type, in order. -/
structure Column where
  newAttribute : Decl
  newAttributeType : Decl
  constraints : List Decl

/-- Effect of `newAttribute.Add(d)` inside the constraint loop. -/
def Column.addConstraint (c : Column) (d : Decl) : Column :=
  { c with constraints := c.constraints ++ [d] }

/-- The column node as the table declaration holds it in the end: the children
`newAttribute` came with, the type node, then the constraints. -/
def Column.decl (c : Column) : Decl :=
  { c.newAttribute with Decl := c.newAttribute.Decl ++ c.newAttributeType :: c.constraints }

/-- The per-column constraint loop (lines 116-192),
`for p.isNot(BracketClosingToken, CommaToken) { switch p.cur().Token { ... } }`. -/
def constraintLoop (sh : Shared) (tokens : List Token) :
    Nat → Column → Nat → Result (Column × Nat)
  | 0, _, _ => .outOfFuel
  | fuel + 1, col, index =>
    (isNot tokens index [BracketClosingToken, CommaToken]).bind fun go =>
    if !go then .ok (col, index) else
    (cur tokens index).bind fun t =>
    match t.Token with
    | UniqueToken =>
      (consumeToken tokens index [UniqueToken]).bind fun (uniqueDecl, index) =>
      constraintLoop sh tokens fuel (col.addConstraint uniqueDecl) index
    | NotToken =>
      match isNext tokens index NullToken with
      | .ok _ =>
        (consumeToken tokens index [NotToken]).bind fun (notDecl, index) =>
        (consumeToken tokens index [NullToken]).bind fun (nullDecl, index) =>
        constraintLoop sh tokens fuel (col.addConstraint (notDecl.Add nullDecl)) index
      | _ => constraintLoop sh tokens fuel col index
    | PrimaryToken =>
      match isNext tokens index KeyToken with
      | .ok _ =>
        match tokens[index]? with
        | none => .panic
        | some tp =>
          let newPrimary := NewDecl tp
          match next tokens index with
          | .ok index =>
            match tokens[index]? with
            | none => .panic
            | some tk =>
              let newKey := NewDecl tk
              match next tokens index with
              | .ok index =>
                constraintLoop sh tokens fuel (col.addConstraint (newPrimary.Add newKey)) index
              | _ => .error (.message "Unexpected end")
          | _ => .error (.message "Unexpected end")
      | _ => constraintLoop sh tokens fuel col index
    | AutoincrementToken =>
      (consumeToken tokens index [AutoincrementToken]).bind fun (autoincDecl, index) =>
      constraintLoop sh tokens fuel (col.addConstraint autoincDecl) index
    | WithToken =>
      if sh.toLower col.newAttributeType.Lexeme = "timestamp" then
        (consumeToken tokens index [WithToken]).bind fun (withDecl, index) =>
        (consumeToken tokens index [TimeToken]).bind fun (timeDecl, index) =>
        (consumeToken tokens index [ZoneToken]).bind fun (zoneDecl, index) =>
        constraintLoop sh tokens fuel
          { col with newAttributeType :=
              col.newAttributeType.Add (withDecl.Add (timeDecl.Add zoneDecl)) } index
      else constraintLoop sh tokens fuel col index
    | DefaultToken =>
      (consumeToken tokens index [DefaultToken]).bind fun (dDecl, index) =>
      (consumeToken tokens index
        [FalseToken, StringToken, NumberToken, LocalTimestampToken]).bind fun (vDecl, index) =>
      constraintLoop sh tokens fuel (col.addConstraint (dDecl.Add vDecl)) index
    | _ => .error (syntaxError tokens index)

/-- The column-list loop (lines 82-204), `for p.index < len(tokens) { ... }`; falling out
of the loop and both `break`s lead to `return tableDecl, nil`. The result of
`parsePrimaryKey` is dropped (line 86), and so is whatever `consumeToken` returns at
line 96. -/
def columnLoop (sh : Shared) (tokens : List Token) :
    Nat → Decl → Nat → Result (Decl × Nat)
  | 0, _, _ => .outOfFuel
  | fuel + 1, tableDecl, index =>
    if index < tokens.length then
      (cur tokens index).bind fun t =>
      if t.Token = PrimaryToken then
        (parsePrimaryKey sh fuel tokens index).bind fun (_, index) =>
        columnLoop sh tokens fuel tableDecl index
      else if t.Token = BracketClosingToken then
        match consumeToken tokens index [BracketClosingToken] with
        | .ok (_, index) => .ok (tableDecl, index)
        | _ => .ok (tableDecl, index)
      else
        (Result.ofExcept (sh.parseQuotedToken tokens index)).bind fun (newAttribute, index) =>
        (Result.ofExcept (sh.parseType tokens index)).bind fun (newAttributeType, index) =>
        (constraintLoop sh tokens fuel ⟨newAttribute, newAttributeType, []⟩ index).bind
          fun (col, index) =>
        match tokens[index]? with
        | none => .panic
        | some t =>
          if t.Token = BracketClosingToken then .ok (tableDecl.Add col.decl, index + 1)
          else columnLoop sh tokens fuel (tableDecl.Add col.decl) (index + 1)
    else .ok (tableDecl, index)

/-- The optional `IF NOT EXISTS` of `parseTable` (lines 44-67): returns the table
declaration with the `IF` node attached, if there is one. -/
def parseIfNotExists (tokens : List Token) (index : Nat) (tableDecl : Decl) :
    Result (Decl × Nat) :=
  (is tokens index [IfToken]).bind fun isIf =>
  if isIf then
    (consumeToken tokens index [IfToken]).bind fun (ifDecl, index) =>
    (is tokens index [NotToken]).bind fun isNot =>
    if isNot then
      (consumeToken tokens index [NotToken]).bind fun (notDecl, index) =>
      (is tokens index [ExistsToken]).bind fun isExists =>
      if !isExists then .error (syntaxError tokens index) else
      (consumeToken tokens index [ExistsToken]).bind fun (existsDecl, index) =>
      .ok (tableDecl.Add (ifDecl.Add (notDecl.Add existsDecl)), index)
    else .ok (tableDecl.Add ifDecl, index)
  else .ok (tableDecl, index)

/-- The table name of `parseTable` (lines 69-74): any failure of `parseAttribute` is
replaced by `p.syntaxError()` at the cursor it left. -/
def parseTableName (sh : Shared) (tokens : List Token) (index : Nat) : Result (Decl × Nat) :=
  match sh.parseAttribute tokens index with
  | (.ok nameTable, index) => .ok (nameTable, index)
  | (.error _, index) => .error (syntaxError tokens index)

/-- The text of the error of line 78. -/
def missingTableDefinition : ParseError :=
  .message "Table name token must be followed by table definition"

/-- The opening bracket of `parseTable` (lines 76-80),
`!p.hasNext() || tokens[p.index].Token != BracketOpeningToken`. -/
def expectTableDefinition (tokens : List Token) (index : Nat) : Result Nat :=
  if !hasNext tokens index then .error missingTableDefinition else
  match tokens[index]? with
  | none => .panic
  | some t =>
    if t.Token ≠ BracketOpeningToken then .error missingTableDefinition
    else .ok (index + 1)

/-- Embedding of `parser.parseTable`, with the cursor on the `TABLE` token. -/
def parseTable (sh : Shared) (fuel : Nat) (tokens : List Token) (index : Nat) :
    Result (Decl × Nat) :=
  match tokens[index]? with
  | none => .panic
  | some t =>
    (parseIfNotExists tokens (index + 1) (NewDecl t)).bind fun (tableDecl, index) =>
    (parseTableName sh tokens index).bind fun (nameTable, index) =>
    (expectTableDefinition tokens index).bind fun index =>
    columnLoop sh tokens fuel (tableDecl.Add nameTable) index

/-! ### `parseCreate` (create.go, lines 8-37) -/

/-- Embedding of `parser.parseCreate`, with the cursor on the `CREATE` token. -/
def parseCreate (sh : Shared) (fuel : Nat) (tokens : List Token) (index : Nat) :
    Result (Instruction × Nat) :=
  match tokens[index]? with
  | none => .panic
  | some c =>
    let createDecl := NewDecl c
    if !hasNext tokens index then
      .error (.message "CREATE token must be followed by TABLE, INDEX")
    else
      match tokens[index + 1]? with
      | none => .panic
      | some t =>
        if t.Token = TableToken then
          (parseTable sh fuel tokens (index + 1)).bind fun (d, index) =>
          .ok (⟨[createDecl.Add d]⟩, index)
        else .error (.message ("Parsing error near <" ++ t.Lexeme ++ ">"))

/-! ### A sample instance of the shared routines -/

/-- Modelled from the spec: the bare case of the shared identifier and type routines
(`parseAttribute`, `parseQuotedToken`, `parseType`), one word token that becomes a node
without children; quoting, sized types and aliases are left out. -/
def bareWord (tokens : List Token) (index : Nat) : Except ParseError Decl × Nat :=
  match tokens[index]? with
  | some t =>
    if t.Token = StringToken then (.ok (NewDecl t), index + 1)
    else (.error (syntaxError tokens index), index)
  | none => (.error .unexpectedEndOfInput, index)

/-- Lower-casing of the ASCII letters, as `strings.ToLower` does on ASCII text. -/
def asciiLower (s : String) : String := String.mk (s.data.map Char.toLower)

/-- The shared routines restricted to bare words. -/
def bareShared : Shared := ⟨bareWord, bareWord, bareWord, asciiLower⟩

end Parser

namespace Engine

open Parser Parser.TokenKind

/-- Modelled from the spec: the semantic column descriptor (name, type name and the
flags and values of its constraints); `table.go` reads `name` and `typeName`. -/
structure Attribute where
  name : String
  typeName : String
  unique : Bool
  nullable : Bool
  primaryKey : Bool
  autoIncrement : Bool
  defaultValue : Option String
  withTimeZone : Bool
  deriving DecidableEq, Repr

/-- Embedding of `Table` (table.go, lines 12-16); `aliasName` is the field `alias`. -/
structure Table where
  name : String
  aliasName : String
  attributes : List Attribute
  deriving DecidableEq, Repr

/-- Embedding of `NewTable`; Go leaves the alias the empty string and `attributes` nil. -/
def NewTable (name : String) : Table := ⟨name, "", []⟩

/-- Embedding of `NewTableWithAlias`. -/
def NewTableWithAlias (name : String) (aliasName : String) : Table :=
  ⟨name, aliasName, []⟩

/-- Embedding of `Table.AddAttribute`: appends, and always returns a nil error. -/
def Table.AddAttribute (t : Table) (attr : Attribute) : Except String Table :=
  .ok { t with attributes := t.attributes ++ [attr] }

/-- Embedding of `Table.Alias`. -/
def Table.Alias (t : Table) : String :=
  if t.aliasName = "" then t.name else t.aliasName

/-- Modelled from the spec: a relation is a table with data; `NewRelation` starts it
without rows. -/
structure Relation where
  table : Table
  rows : List (List String)
  deriving DecidableEq, Repr

/-- Modelled from the spec: `NewRelation` wraps the table definition. -/
def NewRelation (t : Table) : Relation := ⟨t, []⟩

/-- What an executor can change: the catalog `e.relations` (a map from table name to
relation) and the results written to the connection, oldest first. -/
structure World where
  relations : String → Option Relation
  results : List (Int × Int)

/-- Effect of the Go map assignment `e.relations[name] = r`. -/
def World.setRelation (w : World) (name : String) (r : Relation) : World :=
  { w with relations := fun k => if k = name then some r else w.relations k }

/-- Effect of `conn.WriteResult(a, b)`. -/
def World.WriteResult (w : World) (a b : Int) : World :=
  { w with results := w.results ++ [(a, b)] }

/-- Outcome of an executor: a nil error, a returned error with its text, or a Go
run-time panic. -/
inductive Outcome where
  | ok
  | error (text : String)
  | panic
  deriving DecidableEq, Repr

/-- An executor registered in `e.opsExecutors`: it reads the declaration, may change the
engine and the connection, and returns an error or nil. -/
abbrev Executor := Decl → World → Outcome × World

/-- The parts of the engine that `createTableExecutor` uses and that are not part of the
sources at hand, taken as parameters: the registry `e.opsExecutors` (`none` for a nil
entry) and the engine's `parseAttribute`, which converts a column declaration. -/
structure Registry where
  opsExecutors : TokenKind → Option Executor
  parseAttribute : Decl → Except String Attribute

/-- The first loop of `createTableExecutor` (lines 92-104) on the children from index
`i` on: runs the registered executor of each leading child and stops at the first child
without one. Returns the children from the final `i` on. -/
def constraintExecutors (reg : Registry) : List Decl → World → Outcome × List Decl × World
  | [], w => (.ok, [], w)
  | d :: rest, w =>
    match reg.opsExecutors d.Token with
    | some exec =>
      match exec d w with
      | (.ok, w) => constraintExecutors reg rest w
      | (err, w) => (err, d :: rest, w)
    | none => (.ok, d :: rest, w)

/-- The second loop of `createTableExecutor` (lines 117-128) on the children from index
`i` on: converts each child and appends the attribute to the table. -/
def fetchAttributes (reg : Registry) : List Decl → Table → Except String Table
  | [], t => .ok t
  | d :: rest, t =>
    match reg.parseAttribute d with
    | .error err => .error err
    | .ok attr =>
      match t.AddAttribute attr with
      | .error err => .error err
      | .ok t => fetchAttributes reg rest t

/-- Embedding of `createTableExecutor` (table.go, lines 84-133). -/
def createTableExecutor (reg : Registry) (tableDecl : Decl) (w : World) : Outcome × World :=
  if tableDecl.Decl.length = 0 then (.error "parsing failed, malformed query", w) else
  match constraintExecutors reg tableDecl.Decl w with
  | (.ok, [], w) => (.panic, w)
  | (.ok, nameDecl :: columns, w) =>
    match w.relations nameDecl.Lexeme with
    | some _ => (.error ("table " ++ nameDecl.Lexeme ++ " already exists"), w)
    | none =>
      match fetchAttributes reg columns (NewTable nameDecl.Lexeme) with
      | .error err => (.error err, w)
      | .ok t => (.ok, (w.setRelation t.name (NewRelation t)).WriteResult 0 1)
  | (err, _, w) => (err, w)

/-- Embedding of `Tables.ByAlias`: the first table whose `Alias()` is the given one. -/
def Tables.ByAlias : List Table → String → Option Table
  | [], _ => none
  | tt :: rest, a => if tt.Alias = a then some tt else Tables.ByAlias rest a

/-- Embedding of `NewTableFromDecl`: `t.Decl[0].Decl[0]` panics on an `AS` child
without children, hence the `Option`. -/
def NewTableFromDecl (t : Decl) : Option Table :=
  match t.Decl with
  | first :: _ =>
    if first.Token = AsToken then
      match first.Decl with
      | a :: _ => some (NewTableWithAlias t.Lexeme a.Lexeme)
      | [] => none
    else some (NewTable t.Lexeme)
  | [] => some (NewTable t.Lexeme)

/-- The loop of `tableAlias` over the children. -/
def tableAliasLoop : List Decl → Option String
  | [] => some ""
  | d :: rest =>
    if d.Token = AsToken then
      match d.Decl with
      | a :: _ => some a.Lexeme
      | [] => none
    else tableAliasLoop rest

/-- Embedding of `tableAlias`; `none` is the panic of `decl.Decl[0]` on an `AS` child
without children. -/
def tableAlias (decl : Decl) : Option String := tableAliasLoop decl.Decl

/-! ### A sample registry -/

/-- Modelled from the spec: the executor registered for the `IF NOT EXISTS` chain, a
pre-processing step that succeeds and changes neither the catalog nor the connection. -/
def ifExecutor : Executor := fun _ w => (.ok, w)

/-- A sample conversion of a column declaration: the name is the lexeme, the type name
is the lexeme of the first child, and a column without a type is refused. -/
def sampleParseAttribute (d : Decl) : Except String Attribute :=
  match d.Decl with
  | [] => .error "column without a type"
  | ty :: _ => .ok ⟨d.Lexeme, ty.Lexeme, false, true, false, false, none, false⟩

/-- A sample registry: only `IF` has an executor. -/
def sampleRegistry : Registry :=
  ⟨fun k => if k = IfToken then some ifExecutor else none, sampleParseAttribute⟩

/-- The engine before any statement: an empty catalog, nothing written. -/
def emptyWorld : World := ⟨fun _ => none, []⟩

/-- The declaration tree of `TABLE IF NOT EXISTS t ( id INT )`. -/
def sampleTableDecl : Decl :=
  ⟨TableToken, "TABLE",
    [⟨IfToken, "IF", [⟨NotToken, "NOT", [⟨ExistsToken, "EXISTS", []⟩]⟩]⟩,
     ⟨StringToken, "t", []⟩,
     ⟨StringToken, "id", [⟨StringToken, "INT", []⟩]⟩]⟩

/-- A declaration tree whose second column has no type, so that its conversion by
`sampleParseAttribute` fails: `TABLE t ( id INT , broken )`. -/
def brokenTableDecl : Decl :=
  ⟨TableToken, "TABLE",
    [⟨StringToken, "t", []⟩,
     ⟨StringToken, "id", [⟨StringToken, "INT", []⟩]⟩,
     ⟨StringToken, "broken", []⟩]⟩

/-- Every leading child has a registered executor that succeeds. -/
def LeadingSucceed (reg : Registry) (leading : List Decl) : Prop :=
  ∀ c ∈ leading, ∃ exec, reg.opsExecutors c.Token = some exec ∧
    ∀ w, (exec c w).1 = .ok ∧ (exec c w).2.relations = w.relations

/-- Every leading child has a registered executor that succeeds and changes nothing. -/
def LeadingQuiet (reg : Registry) (leading : List Decl) : Prop :=
  ∀ c ∈ leading, ∃ exec, reg.opsExecutors c.Token = some exec ∧ ∀ w, exec c w = (.ok, w)

/-- No registered executor of a child changes the catalog or the connection, whether it
succeeds or fails. -/
def ExecutorsPure (reg : Registry) (children : List Decl) : Prop :=
  ∀ c ∈ children, ∀ exec, reg.opsExecutors c.Token = some exec → ∀ w, (exec c w).2 = w

/-- No registered executor of a child changes the catalog, whether it succeeds or fails. -/
def ExecutorsKeepCatalog (reg : Registry) (children : List Decl) : Prop :=
  ∀ c ∈ children, ∀ exec, reg.opsExecutors c.Token = some exec →
    ∀ w, (exec c w).2.relations = w.relations

/-- The declaration tree `TABLE` with the `IF NOT EXISTS` chain as only child. -/
def onlyIfTableDecl : Decl :=
  ⟨TableToken, "TABLE",
    [⟨IfToken, "IF", [⟨NotToken, "NOT", [⟨ExistsToken, "EXISTS", []⟩]⟩]⟩]⟩

/-- A table declaration `t` whose `AS a` child comes second, after another child `x`. -/
def asSecondDecl : Decl :=
  ⟨StringToken, "t", [⟨StringToken, "x", []⟩, ⟨AsToken, "AS", [⟨StringToken, "a", []⟩]⟩]⟩

/-- Three tables: `users` without alias, `orders` with alias `o`, `old` with alias `o`. -/
def sampleTables : List Table :=
  [NewTable "users", NewTableWithAlias "orders" "o", NewTableWithAlias "old" "o"]

end Engine

namespace Parser

open TokenKind

/-! ### Sample token sequences -/

/-- A word token (an identifier or a type name). -/
def word (s : String) : Token := ⟨StringToken, s⟩

/-- A keyword token of the given kind. -/
def keyword (kind : TokenKind) (s : String) : Token := ⟨kind, s⟩

/-- The token `(`. -/
def openingBracket : Token := ⟨BracketOpeningToken, "("⟩

/-- The token `)`. -/
def closingBracket : Token := ⟨BracketClosingToken, ")"⟩

/-- The token `,`. -/
def comma : Token := ⟨CommaToken, ","⟩

/-- The tokens of `CREATE TABLE t ( id INT NOT x )`. -/
def notWithoutNull : List Token :=
  [keyword CreateToken "CREATE", keyword TableToken "TABLE", word "t", openingBracket,
   word "id", word "INT", keyword NotToken "NOT", word "x", closingBracket]

/-- The tokens of `CREATE TABLE t ( id INT PRIMARY x )`. -/
def primaryWithoutKey : List Token :=
  [keyword CreateToken "CREATE", keyword TableToken "TABLE", word "t", openingBracket,
   word "id", word "INT", keyword PrimaryToken "PRIMARY", word "x", closingBracket]

/-- The tokens of `CREATE TABLE t ( created INT WITH TIME ZONE )`. -/
def withAfterInt : List Token :=
  [keyword CreateToken "CREATE", keyword TableToken "TABLE", word "t", openingBracket,
   word "created", word "INT", keyword WithToken "WITH", keyword TimeToken "TIME",
   keyword ZoneToken "ZONE", closingBracket]

/-! ### Well-formed `CREATE TABLE` token sequences and the trees they stand for -/

/-- The kinds of token that `DEFAULT` accepts as its value (line 183). -/
def defaultValueKinds : List TokenKind :=
  [FalseToken, StringToken, NumberToken, LocalTimestampToken]

/-- A column constraint clause, given by the lexemes of its keywords (and the value token
of `DEFAULT`). -/
inductive Constraint where
  | unique (u : String)
  | notNull (n l : String)
  | primaryKey (p k : String)
  | autoincrement (a : String)
  | withTimeZone (w t z : String)
  | defaultValue (d : String) (v : Token)

/-- The tokens of a constraint clause. -/
def Constraint.tokens : Constraint → List Token
  | .unique u => [⟨UniqueToken, u⟩]
  | .notNull n l => [⟨NotToken, n⟩, ⟨NullToken, l⟩]
  | .primaryKey p k => [⟨PrimaryToken, p⟩, ⟨KeyToken, k⟩]
  | .autoincrement a => [⟨AutoincrementToken, a⟩]
  | .withTimeZone w t z => [⟨WithToken, w⟩, ⟨TimeToken, t⟩, ⟨ZoneToken, z⟩]
  | .defaultValue d v => [⟨DefaultToken, d⟩, v]

/-- A constraint clause is well formed in a column of the given type lexeme: `WITH TIME
ZONE` needs a type whose lower-cased lexeme is `timestamp`, and `DEFAULT` needs a value
token of one of the four kinds. -/
def Constraint.WellFormed (sh : Shared) (typeLexeme : String) : Constraint → Prop
  | .withTimeZone _ _ _ => sh.toLower typeLexeme = "timestamp"
  | .defaultValue _ v => v.Token ∈ defaultValueKinds
  | _ => True

/-- The node that a constraint clause puts under the column node, if any. -/
def Constraint.node : Constraint → Option Decl
  | .unique u => some ⟨UniqueToken, u, []⟩
  | .notNull n l => some ⟨NotToken, n, [⟨NullToken, l, []⟩]⟩
  | .primaryKey p k => some ⟨PrimaryToken, p, [⟨KeyToken, k, []⟩]⟩
  | .autoincrement a => some ⟨AutoincrementToken, a, []⟩
  | .withTimeZone _ _ _ => none
  | .defaultValue d v => some ⟨DefaultToken, d, [⟨v.Token, v.Lexeme, []⟩]⟩

/-- The node that a constraint clause puts under the type node, if any. -/
def Constraint.typeNode : Constraint → Option Decl
  | .withTimeZone w t z => some ⟨WithToken, w, [⟨TimeToken, t, [⟨ZoneToken, z, []⟩]⟩]⟩
  | _ => none

/-- The tokens of a list of constraint clauses, in order. -/
def constraintsTokens : List Constraint → List Token
  | [] => []
  | c :: cs => c.tokens ++ constraintsTokens cs

/-- A column clause `name type constraints`, name and type being bare words. -/
structure ColumnClause where
  name : String
  type : String
  constraints : List Constraint

/-- The tokens of a column clause. -/
def ColumnClause.tokens (c : ColumnClause) : List Token :=
  word c.name :: word c.type :: constraintsTokens c.constraints

/-- All the constraint clauses of a column clause are well formed. -/
def ColumnClause.WellFormed (sh : Shared) (c : ColumnClause) : Prop :=
  ∀ k ∈ c.constraints, k.WellFormed sh c.type

/-- The column declaration that a column clause stands for: the type node first, with
the `WITH` chains as its children, then the nodes of the other constraints. -/
def ColumnClause.decl (c : ColumnClause) : Decl :=
  ⟨StringToken, c.name,
    ⟨StringToken, c.type, c.constraints.filterMap Constraint.typeNode⟩ ::
      c.constraints.filterMap Constraint.node⟩

/-- The tokens of a column list from its first column to the closing bracket, the
columns separated by commas. -/
def columnsTokens : List ColumnClause → List Token
  | [] => [closingBracket]
  | [c] => c.tokens ++ [closingBracket]
  | c :: c1 :: cs => c.tokens ++ comma :: columnsTokens (c1 :: cs)

/-- The tokens of columns that are each followed by a comma. -/
def leadingColumnsTokens : List ColumnClause → List Token
  | [] => []
  | c :: cs => c.tokens ++ comma :: leadingColumnsTokens cs

/-- The tokens of `TABLE name ( columns )`, `table` being the `TABLE` token. -/
def tableTokens (table : Token) (name : String) (columns : List ColumnClause) : List Token :=
  table :: word name :: openingBracket :: columnsTokens columns

/-- The table declaration that `TABLE name ( columns )` stands for. -/
def tableDeclOf (table : Token) (name : String) (columns : List ColumnClause) : Decl :=
  ⟨table.Token, table.Lexeme, ⟨StringToken, name, []⟩ :: columns.map ColumnClause.decl⟩

/-- The shared routines read a bare word of the given tokens as a node without children
and move the cursor past it. -/
def BareWords (sh : Shared) (tokens : List Token) : Prop :=
  ∀ i t, tokens[i]? = some t → t.Token = StringToken →
    sh.parseAttribute tokens i = (.ok (NewDecl t), i + 1) ∧
    sh.parseQuotedToken tokens i = (.ok (NewDecl t), i + 1) ∧
    sh.parseType tokens i = (.ok (NewDecl t), i + 1)

/-- The state of a column after the given constraint clauses have been read. -/
def Column.extend (col : Column) (cs : List Constraint) : Column :=
  { newAttribute := col.newAttribute
    newAttributeType :=
      { col.newAttributeType with
        Decl := col.newAttributeType.Decl ++ cs.filterMap Constraint.typeNode }
    constraints := col.constraints ++ cs.filterMap Constraint.node }

/-- The column declarations match the column clauses one by one, in order: each carries
the name of its clause as lexeme and has the type of its clause as first child. -/
def ColumnsMatch (columns : List ColumnClause) (columnDecls : List Decl) : Prop :=
  List.Forall₂ (fun (c : ColumnClause) (d : Decl) =>
    d.Lexeme = c.name ∧
      ∃ ty others, d.Decl = ty :: others ∧ ty.Token = StringToken ∧ ty.Lexeme = c.type)
    columns columnDecls

/-- The column clauses of
`id INT UNIQUE NOT NULL , ts TimeStamp WITH TIME ZONE DEFAULT 1 PRIMARY KEY`. -/
def sampleColumns : List ColumnClause :=
  [⟨"id", "INT", [.unique "UNIQUE", .notNull "NOT" "NULL"]⟩,
   ⟨"ts", "TimeStamp",
     [.withTimeZone "WITH" "TIME" "ZONE", .defaultValue "DEFAULT" ⟨NumberToken, "1"⟩,
      .primaryKey "PRIMARY" "KEY"]⟩]

/-- The tokens of `TABLE name (`, of well-formed columns each followed by a comma, and of
one more column up to the end of the given constraint clauses. -/
def openColumnTokens (table : Token) (name : String) (pre : List ColumnClause)
    (cname ctype : String) (cs : List Constraint) : List Token :=
  table :: word name :: openingBracket ::
    (leadingColumnsTokens pre ++ word cname :: word ctype :: constraintsTokens cs)

/-- The column clauses of `a TIMESTAMP WITH TIME ZONE , b Timestamp WITH TIME ZONE ,
c timestamp WITH TIME ZONE`. -/
def timestampColumns : List ColumnClause :=
  [⟨"a", "TIMESTAMP", [.withTimeZone "WITH" "TIME" "ZONE"]⟩,
   ⟨"b", "Timestamp", [.withTimeZone "WITH" "TIME" "ZONE"]⟩,
   ⟨"c", "timestamp", [.withTimeZone "WITH" "TIME" "ZONE"]⟩]

/-- The tokens of `CREATE TABLE t (`, the opening bracket being the last token. -/
def bracketLast : List Token :=
  [keyword CreateToken "CREATE", keyword TableToken "TABLE", word "t", openingBracket]

/-- The tokens of `CREATE TABLE t id INT )`. -/
def bracketMissing : List Token :=
  [keyword CreateToken "CREATE", keyword TableToken "TABLE", word "t", word "id",
   word "INT", closingBracket]

/-- The tokens of `CREATE TABLE IF t ( id INT )`. -/
def ifWithoutNot : List Token :=
  [keyword CreateToken "CREATE", keyword TableToken "TABLE", keyword IfToken "IF", word "t",
   openingBracket, word "id", word "INT", closingBracket]

/-- The shared column routines never return the error of line 78. -/
def NoMissingTableDefinition (sh : Shared) (tokens : List Token) : Prop :=
  ∀ i, (sh.parseQuotedToken tokens i).1 ≠ .error missingTableDefinition ∧
    (sh.parseType tokens i).1 ≠ .error missingTableDefinition

/-- The outcome is not the error of line 78. -/
def NotMissing {α : Type} (r : Result α) : Prop := r ≠ .error missingTableDefinition

/-- The tokens of a list of key columns from its first name to the closing bracket: the
first name `c`, then the other names, each after a comma. -/
def keyNamesTokens (c : String) : List String → List Token
  | [] => [word c, closingBracket]
  | c1 :: cs => word c :: comma :: keyNamesTokens c1 cs

/-- The tokens of `PRIMARY KEY ( c , c1 , ... )`, with the lexemes `p` and `k` of the two
keywords. -/
def primaryKeyTokens (p k : String) (c : String) (cs : List String) : List Token :=
  ⟨PrimaryToken, p⟩ :: ⟨KeyToken, k⟩ :: openingBracket :: keyNamesTokens c cs

/-- The tokens of `CREATE TABLE t ( a INT ,`: the input ends after a comma. -/
def trailingComma : List Token :=
  [keyword CreateToken "CREATE", keyword TableToken "TABLE", word "t", openingBracket,
   word "a", word "INT", comma]

/-- The tokens of `CREATE TABLE IF NOT EXISTS t ( id INT )`. -/
def ifNotExistsTokens : List Token :=
  [keyword CreateToken "CREATE", keyword TableToken "TABLE", keyword IfToken "IF",
   keyword NotToken "NOT", keyword ExistsToken "EXISTS", word "t", openingBracket,
   word "id", word "INT", closingBracket]

/-- The tokens of `CREATE TABLE IF NOT t ( id INT )`. -/
def ifNotWithoutExists : List Token :=
  [keyword CreateToken "CREATE", keyword TableToken "TABLE", keyword IfToken "IF",
   keyword NotToken "NOT", word "t", openingBracket, word "id", word "INT", closingBracket]

/-- The tokens of `CREATE INDEX`. -/
def createIndex : List Token :=
  [keyword CreateToken "CREATE", keyword (Other 1) "INDEX"]

/-- Two column clauses with the same name and the same type whose constraint clauses are a
permutation of each other. -/
def SameUpToOrder (c c1 : ColumnClause) : Prop :=
  c.name = c1.name ∧ c.type = c1.type ∧ c.constraints.Perm c1.constraints

/-- Two column declarations agree up to the order of their constraints: same token and
lexeme, a first child (the type) with the same token and lexeme and the same children up to
order (the very same type child if it has at most one child), and the same further
children up to order. -/
def DeclsAgree (d d1 : Decl) : Prop :=
  d.Token = d1.Token ∧ d.Lexeme = d1.Lexeme ∧
    ∃ ty others ty1 others1, d.Decl = ty :: others ∧ d1.Decl = ty1 :: others1 ∧
      ty.Token = ty1.Token ∧ ty.Lexeme = ty1.Lexeme ∧ ty.Decl.Perm ty1.Decl ∧
      (ty.Decl.length ≤ 1 → ty = ty1) ∧ others.Perm others1

/-- The outcome is not a result: an error, a panic, or a loop that is still running. -/
def NeverOk {α : Type} (r : Result α) : Prop := ∀ a, r ≠ .ok a

/-- The column clause `id INT UNIQUE NOT NULL`. -/
def uniqueNotNull : List ColumnClause :=
  [⟨"id", "INT", [.unique "UNIQUE", .notNull "NOT" "NULL"]⟩]

/-- The column clause `id INT NOT NULL UNIQUE`. -/
def notNullUnique : List ColumnClause :=
  [⟨"id", "INT", [.notNull "NOT" "NULL", .unique "UNIQUE"]⟩]

/-- The column clause `id INT WITH TIME ZONE UNIQUE`. -/
def withThenUnique : List ColumnClause :=
  [⟨"id", "INT", [.withTimeZone "WITH" "TIME" "ZONE", .unique "UNIQUE"]⟩]

/-- The column clause `id INT UNIQUE WITH TIME ZONE`. -/
def uniqueThenWith : List ColumnClause :=
  [⟨"id", "INT", [.unique "UNIQUE", .withTimeZone "WITH" "TIME" "ZONE"]⟩]

/-- The column clause `id INT DEFAULT NULL WITH TIME ZONE`. -/
def defaultThenWith : List ColumnClause :=
  [⟨"id", "INT", [.defaultValue "DEFAULT" (keyword NullToken "NULL"),
    .withTimeZone "WITH" "TIME" "ZONE"]⟩]

/-- The column clause `id INT WITH TIME ZONE DEFAULT NULL`. -/
def withThenDefault : List ColumnClause :=
  [⟨"id", "INT", [.withTimeZone "WITH" "TIME" "ZONE",
    .defaultValue "DEFAULT" (keyword NullToken "NULL")]⟩]

/-- The tokens of `CREATE TABLE t ( columns )`. -/
def createTableTokens (columns : List ColumnClause) : List Token :=
  keyword CreateToken "CREATE" :: tableTokens (keyword TableToken "TABLE") "t" columns

end Parser

/-! ## Theorems -/

namespace Engine

open Parser Parser.TokenKind

/-! ### The executor -/

theorem constraintExecutors_succeed (reg : Registry) (nameDecl : Decl) (columns : List Decl)
    (hname : reg.opsExecutors nameDecl.Token = none) :
    ∀ (leading : List Decl) (w : World), LeadingSucceed reg leading →
      ∃ w1, constraintExecutors reg (leading ++ nameDecl :: columns) w
          = (.ok, nameDecl :: columns, w1) ∧ w1.relations = w.relations := by
  intro leading
  induction leading with
  | nil =>
    intro w _
    exact ⟨w, by simp [constraintExecutors, hname], rfl⟩
  | cons c rest ih =>
    intro w h
    obtain ⟨exec, hexec, hok⟩ := h c (by simp)
    have hrest : LeadingSucceed reg rest := fun d hd => h d (by simp [hd])
    obtain ⟨w1, h1, h2⟩ := ih (exec c w).2 hrest
    refine ⟨w1, ?_, h2.trans (hok w).2⟩
    have hpair : exec c w = (.ok, (exec c w).2) := by
      rw [← (hok w).1]
    simp only [List.cons_append, constraintExecutors, hexec]
    rw [hpair]
    exact h1

theorem constraintExecutors_quiet (reg : Registry) (nameDecl : Decl) (columns : List Decl)
    (hname : reg.opsExecutors nameDecl.Token = none) :
    ∀ (leading : List Decl) (w : World), LeadingQuiet reg leading →
      constraintExecutors reg (leading ++ nameDecl :: columns) w
        = (.ok, nameDecl :: columns, w) := by
  intro leading
  induction leading with
  | nil => intro w _; simp [constraintExecutors, hname]
  | cons c rest ih =>
    intro w h
    obtain ⟨exec, hexec, hok⟩ := h c (by simp)
    have hrest : LeadingQuiet reg rest := fun d hd => h d (by simp [hd])
    simp only [List.cons_append, constraintExecutors, hexec, hok]
    exact ih w hrest

theorem constraintExecutors_pure (reg : Registry) :
    ∀ (children : List Decl) (w : World), ExecutorsPure reg children →
      (constraintExecutors reg children w).2.2 = w := by
  intro children
  induction children with
  | nil => intro w _; rfl
  | cons c rest ih =>
    intro w h
    have hrest : ExecutorsPure reg rest := fun d hd => h d (by simp [hd])
    simp only [constraintExecutors]
    cases hexec : reg.opsExecutors c.Token with
    | none => rfl
    | some exec =>
      have hw := h c (by simp) exec hexec w
      simp only
      cases hres : exec c w with
      | mk o w1 =>
        rw [hres] at hw
        simp only at hw
        subst hw
        cases o with
        | ok => exact ih _ hrest
        | error text => rfl
        | panic => rfl

theorem fetchAttributes_ok (reg : Registry) :
    ∀ (columns : List Decl) (attrs : List Attribute) (t : Table),
      List.Forall₂ (fun d a => reg.parseAttribute d = Except.ok a) columns attrs →
      fetchAttributes reg columns t = .ok { t with attributes := t.attributes ++ attrs } := by
  intro columns attrs t h
  induction h generalizing t with
  | nil => simp [fetchAttributes]
  | cons hd _ ih =>
    simp only [fetchAttributes, hd, Table.AddAttribute]
    rw [ih]
    simp

theorem fetchAttributes_name (reg : Registry) :
    ∀ (columns : List Decl) (t t1 : Table),
      fetchAttributes reg columns t = .ok t1 → t1.name = t.name := by
  intro columns
  induction columns with
  | nil =>
    intro t t1 h
    simp only [fetchAttributes, Except.ok.injEq] at h
    rw [← h]
  | cons d rest ih =>
    intro t t1 h
    simp only [fetchAttributes] at h
    cases hd : reg.parseAttribute d with
    | error err => rw [hd] at h; cases h
    | ok attr =>
      rw [hd] at h
      simp only [Table.AddAttribute] at h
      exact ih { t with attributes := t.attributes ++ [attr] } t1 h

theorem createTableExecutor_of_name (reg : Registry) (tableDecl nameDecl : Decl)
    (columns : List Decl) (w w1 : World)
    (h : constraintExecutors reg tableDecl.Decl w = (.ok, nameDecl :: columns, w1)) :
    createTableExecutor reg tableDecl w =
      match w1.relations nameDecl.Lexeme with
      | some _ => (.error ("table " ++ nameDecl.Lexeme ++ " already exists"), w1)
      | none =>
        match fetchAttributes reg columns (NewTable nameDecl.Lexeme) with
        | .error err => (.error err, w1)
        | .ok t => (.ok, (w1.setRelation t.name (NewRelation t)).WriteResult 0 1) := by
  have hne : ¬ tableDecl.Decl.length = 0 := by
    intro h0
    rw [List.length_eq_zero] at h0
    rw [h0] at h
    simp [constraintExecutors] at h
  unfold createTableExecutor
  rw [if_neg hne, h]

theorem duplicate_of_present (reg : Registry) (tableDecl : Decl)
    (leading : List Decl) (nameDecl : Decl) (columns : List Decl)
    (hdecl : tableDecl.Decl = leading ++ nameDecl :: columns)
    (hleading : LeadingSucceed reg leading)
    (hname : reg.opsExecutors nameDecl.Token = none)
    (w : World) (r : Relation) (hr : w.relations nameDecl.Lexeme = some r) :
    (createTableExecutor reg tableDecl w).1
      = .error ("table " ++ nameDecl.Lexeme ++ " already exists") := by
  obtain ⟨w1, h1, h2⟩ := constraintExecutors_succeed reg nameDecl columns hname leading w hleading
  rw [← hdecl] at h1
  rw [createTableExecutor_of_name reg tableDecl nameDecl columns w w1 h1, h2, hr]

/-- C1: if the leading children of a table declaration all have registered executors that
succeed and keep the catalog, and the next child (the table name) has none, then
`createTableExecutor` fails with `table <name> already exists` on every catalog that
holds a relation under that name; in particular a second run on the world that a
successful first run left fails with that error, whatever leading children (such as an
`IF NOT EXISTS` chain) the declaration has. -/
theorem createTableExecutor_duplicate (reg : Registry) (tableDecl : Decl)
    (leading : List Decl) (nameDecl : Decl) (columns : List Decl) (w : World)
    (hdecl : tableDecl.Decl = leading ++ nameDecl :: columns)
    (hleading : LeadingSucceed reg leading)
    (hname : reg.opsExecutors nameDecl.Token = none) :
    ((∃ r, w.relations nameDecl.Lexeme = some r) →
      (createTableExecutor reg tableDecl w).1
        = .error ("table " ++ nameDecl.Lexeme ++ " already exists")) ∧
    ((createTableExecutor reg tableDecl w).1 = .ok →
      (createTableExecutor reg tableDecl (createTableExecutor reg tableDecl w).2).1
        = .error ("table " ++ nameDecl.Lexeme ++ " already exists")) := by
  refine ⟨fun ⟨r, hr⟩ => duplicate_of_present reg tableDecl leading
    nameDecl columns hdecl hleading hname w r hr, fun hok => ?_⟩
  obtain ⟨w1, h1, -⟩ := constraintExecutors_succeed reg nameDecl columns hname leading w hleading
  rw [← hdecl] at h1
  have hcte := createTableExecutor_of_name reg tableDecl nameDecl columns w w1 h1
  rw [hcte] at hok
  cases hrel : w1.relations nameDecl.Lexeme with
  | some r0 => rw [hrel] at hok; cases hok
  | none =>
    rw [hrel] at hok hcte
    cases hfetch : fetchAttributes reg columns (NewTable nameDecl.Lexeme) with
    | error err => rw [hfetch] at hok; cases hok
    | ok t =>
      rw [hfetch] at hcte
      have htn : t.name = nameDecl.Lexeme := fetchAttributes_name reg columns _ t hfetch
      apply duplicate_of_present reg tableDecl leading nameDecl columns
        hdecl hleading hname _ (NewRelation t)
      rw [hcte]
      simp [World.WriteResult, World.setRelation, htn]

/-- Witness of C1 on `TABLE IF NOT EXISTS t ( id INT )`: the first run on the empty
catalog succeeds and the second run on the resulting catalog fails. -/
theorem createTableExecutor_duplicate_witness :
    (createTableExecutor sampleRegistry sampleTableDecl emptyWorld).1 = .ok ∧
    (createTableExecutor sampleRegistry sampleTableDecl
        (createTableExecutor sampleRegistry sampleTableDecl emptyWorld).2).1
      = .error "table t already exists" :=
  ⟨rfl,
   (createTableExecutor_duplicate sampleRegistry sampleTableDecl
      [⟨IfToken, "IF", [⟨NotToken, "NOT", [⟨ExistsToken, "EXISTS", []⟩]⟩]⟩]
      ⟨StringToken, "t", []⟩ [⟨StringToken, "id", [⟨StringToken, "INT", []⟩]⟩] emptyWorld
      rfl
      (by
        intro c hc
        simp only [List.mem_singleton] at hc
        subst hc
        exact ⟨ifExecutor, rfl, fun w => ⟨rfl, rfl⟩⟩)
      rfl).2 rfl⟩

/-- C2: if the leading children all have registered executors that succeed without
changing anything, the next child (the table name) has no executor and is not in the
catalog, and the remaining children convert to the attributes `attrs` one by one, then
`createTableExecutor` succeeds, the catalog maps the name to the relation of a table with
that name and exactly the attributes `attrs` (as many as there are remaining children, in
their order), and the connection has received exactly one more result, `(0, 1)`. -/
theorem createTableExecutor_success (reg : Registry) (tableDecl : Decl)
    (leading : List Decl) (nameDecl : Decl) (columns : List Decl)
    (attrs : List Attribute) (w : World)
    (hdecl : tableDecl.Decl = leading ++ nameDecl :: columns)
    (hleading : LeadingQuiet reg leading)
    (hname : reg.opsExecutors nameDecl.Token = none)
    (hfresh : w.relations nameDecl.Lexeme = none)
    (hconv : List.Forall₂ (fun d a => reg.parseAttribute d = Except.ok a) columns attrs) :
    (createTableExecutor reg tableDecl w).1 = .ok ∧
    (createTableExecutor reg tableDecl w).2.relations nameDecl.Lexeme
      = some (NewRelation ⟨nameDecl.Lexeme, "", attrs⟩) ∧
    attrs.length = columns.length ∧
    (createTableExecutor reg tableDecl w).2.results = w.results ++ [(0, 1)] := by
  have h1 := constraintExecutors_quiet reg nameDecl columns hname leading w hleading
  rw [← hdecl] at h1
  rw [createTableExecutor_of_name reg tableDecl nameDecl columns w w h1, hfresh,
    fetchAttributes_ok reg columns attrs _ hconv]
  refine ⟨rfl, ?_, hconv.length_eq.symm, ?_⟩
  · simp [World.WriteResult, World.setRelation, NewTable]
  · simp [World.WriteResult, World.setRelation]

/-- Witness of C2 on `TABLE IF NOT EXISTS t ( id INT )` and the empty catalog. -/
theorem createTableExecutor_success_witness :
    (createTableExecutor sampleRegistry sampleTableDecl emptyWorld).1 = .ok ∧
    (createTableExecutor sampleRegistry sampleTableDecl emptyWorld).2.relations "t"
      = some (NewRelation ⟨"t", "", [⟨"id", "INT", false, true, false, false, none, false⟩]⟩) ∧
    [(⟨"id", "INT", false, true, false, false, none, false⟩ : Attribute)].length
      = [(⟨StringToken, "id", [⟨StringToken, "INT", []⟩]⟩ : Decl)].length ∧
    (createTableExecutor sampleRegistry sampleTableDecl emptyWorld).2.results
      = emptyWorld.results ++ [(0, 1)] :=
  createTableExecutor_success sampleRegistry sampleTableDecl
    [⟨IfToken, "IF", [⟨NotToken, "NOT", [⟨ExistsToken, "EXISTS", []⟩]⟩]⟩]
    ⟨StringToken, "t", []⟩ [⟨StringToken, "id", [⟨StringToken, "INT", []⟩]⟩]
    [⟨"id", "INT", false, true, false, false, none, false⟩] emptyWorld
    rfl
    (by
      intro c hc
      simp only [List.mem_singleton] at hc
      subst hc
      exact ⟨ifExecutor, rfl, fun w => rfl⟩)
    rfl rfl
    (List.Forall₂.cons rfl List.Forall₂.nil)

/-- C3: if no registered executor of a child changes the catalog or the connection, then
whenever `createTableExecutor` does not succeed (an empty declaration, a duplicate table
name, a failing executor, a failing conversion of any column) the catalog and the results
written to the connection are exactly what they were before the call. -/
theorem createTableExecutor_failure_unchanged (reg : Registry) (tableDecl : Decl) (w : World)
    (hpure : ExecutorsPure reg tableDecl.Decl)
    (hfail : (createTableExecutor reg tableDecl w).1 ≠ .ok) :
    (createTableExecutor reg tableDecl w).2 = w := by
  have h1 := constraintExecutors_pure reg tableDecl.Decl w hpure
  by_cases h0 : tableDecl.Decl.length = 0
  · simp [createTableExecutor, h0]
  · unfold createTableExecutor at hfail ⊢
    rw [if_neg h0] at hfail ⊢
    revert hfail h1
    generalize constraintExecutors reg tableDecl.Decl w = res
    rcases res with ⟨o, rest, w1⟩
    intro hfail h1
    simp only at h1
    subst h1
    cases o with
    | ok =>
      cases rest with
      | nil => rfl
      | cons nameDecl columns =>
        simp only at hfail ⊢
        cases hrel : w1.relations nameDecl.Lexeme with
        | some r0 => rfl
        | none =>
          rw [hrel] at hfail
          simp only at hfail ⊢
          cases hfetch : fetchAttributes reg columns (NewTable nameDecl.Lexeme) with
          | error err => rfl
          | ok t => rw [hfetch] at hfail; exact absurd rfl hfail
    | error text => rfl
    | panic => rfl

/-- Witness of C3 on `TABLE t ( id INT , broken )`, whose second column fails to
convert: the call fails and leaves the empty world as it was. -/
theorem createTableExecutor_failure_unchanged_witness :
    (createTableExecutor sampleRegistry brokenTableDecl emptyWorld).1
      = .error "column without a type" ∧
    (createTableExecutor sampleRegistry brokenTableDecl emptyWorld).2 = emptyWorld :=
  ⟨rfl, createTableExecutor_failure_unchanged sampleRegistry brokenTableDecl emptyWorld
    (by
      intro c hc exec hexec w
      simp only [sampleRegistry] at hexec
      split at hexec
      · cases hexec; rfl
      · cases hexec)
    (by decide)⟩

/-! ### The catalog after a successful `CREATE TABLE` -/

theorem constraintExecutors_keep (reg : Registry) :
    ∀ (children : List Decl) (w : World), ExecutorsKeepCatalog reg children →
      (constraintExecutors reg children w).2.2.relations = w.relations ∧
      ∀ d ∈ (constraintExecutors reg children w).2.1, d ∈ children := by
  intro children
  induction children with
  | nil => intro w _; exact ⟨rfl, fun d hd => hd⟩
  | cons c rest ih =>
    intro w h
    have hrest : ExecutorsKeepCatalog reg rest := fun d hd => h d (by simp [hd])
    simp only [constraintExecutors]
    cases hexec : reg.opsExecutors c.Token with
    | none => exact ⟨rfl, fun d hd => hd⟩
    | some exec =>
      have hw := h c (by simp) exec hexec w
      simp only
      cases hres : exec c w with
      | mk o w1 =>
        rw [hres] at hw
        simp only at hw
        cases o with
        | ok =>
          obtain ⟨h1, h2⟩ := ih w1 hrest
          exact ⟨h1.trans hw, fun d hd => List.mem_cons_of_mem _ (h2 d hd)⟩
        | error text => exact ⟨hw, fun d hd => hd⟩
        | panic => exact ⟨hw, fun d hd => hd⟩

/-- C14: if no registered executor of a child changes the catalog, then after a successful
`createTableExecutor` the catalog is the catalog before plus exactly one entry: there is a
child whose lexeme `name` was not mapped before, `name` is now mapped to a relation of a
table of that name, and every other key is mapped as before (none added, none removed, no
relation replaced). -/
theorem createTableExecutor_catalog_frame (reg : Registry) (tableDecl : Decl) (w : World)
    (hkeep : ExecutorsKeepCatalog reg tableDecl.Decl)
    (hok : (createTableExecutor reg tableDecl w).1 = .ok) :
    ∃ nameDecl r, nameDecl ∈ tableDecl.Decl ∧ w.relations nameDecl.Lexeme = none ∧
      r.table.name = nameDecl.Lexeme ∧
      (createTableExecutor reg tableDecl w).2.relations nameDecl.Lexeme = some r ∧
      ∀ k, k ≠ nameDecl.Lexeme →
        (createTableExecutor reg tableDecl w).2.relations k = w.relations k := by
  obtain ⟨h1, h2⟩ := constraintExecutors_keep reg tableDecl.Decl w hkeep
  by_cases h0 : tableDecl.Decl.length = 0
  · simp [createTableExecutor, h0] at hok
  · unfold createTableExecutor at hok ⊢
    rw [if_neg h0] at hok ⊢
    revert hok h1 h2
    generalize constraintExecutors reg tableDecl.Decl w = res
    rcases res with ⟨o, rest, w1⟩
    intro hok h1 h2
    simp only at h1 h2
    cases o with
    | error text => cases hok
    | panic => cases hok
    | ok =>
      cases rest with
      | nil => cases hok
      | cons nameDecl columns =>
        simp only at hok ⊢
        cases hrel : w1.relations nameDecl.Lexeme with
        | some r0 => rw [hrel] at hok; cases hok
        | none =>
          simp only
          cases hfetch : fetchAttributes reg columns (NewTable nameDecl.Lexeme) with
          | error err => rw [hrel, hfetch] at hok; cases hok
          | ok t =>
            have htn : t.name = nameDecl.Lexeme :=
              fetchAttributes_name reg columns _ t hfetch
            refine ⟨nameDecl, NewRelation t, h2 _ (by simp), by rw [← h1]; exact hrel, htn,
              ?_, ?_⟩
            · simp [World.WriteResult, World.setRelation, htn]
            · intro k hk
              simp [World.WriteResult, World.setRelation, htn, hk, h1]

/-- Witness of C14 on `TABLE IF NOT EXISTS t ( id INT )` and the empty catalog. -/
theorem createTableExecutor_catalog_frame_witness :
    ∃ nameDecl r, nameDecl ∈ sampleTableDecl.Decl ∧
      emptyWorld.relations nameDecl.Lexeme = none ∧ r.table.name = nameDecl.Lexeme ∧
      (createTableExecutor sampleRegistry sampleTableDecl emptyWorld).2.relations
        nameDecl.Lexeme = some r ∧
      ∀ k, k ≠ nameDecl.Lexeme →
        (createTableExecutor sampleRegistry sampleTableDecl emptyWorld).2.relations k
          = emptyWorld.relations k :=
  createTableExecutor_catalog_frame sampleRegistry sampleTableDecl emptyWorld
    (by
      intro c _ exec hexec w
      simp only [sampleRegistry] at hexec
      split at hexec
      · cases hexec; rfl
      · cases hexec)
    rfl

/-! ### Tables and aliases -/

/-- C15: `NewTableWithAlias(name, alias).Alias()` is the alias when it is not empty and
the name otherwise, and `NewTable(name).Alias()` is the name. -/
theorem Alias_of_new (name aliasName : String) :
    (NewTableWithAlias name aliasName).Alias = (if aliasName = "" then name else aliasName) ∧
    (NewTable name).Alias = name := by
  constructor
  · rfl
  · simp [NewTable, Table.Alias]

theorem ByAlias_eq_none (a : String) :
    ∀ ts : List Table, Tables.ByAlias ts a = none ↔ ∀ t ∈ ts, t.Alias ≠ a := by
  intro ts
  induction ts with
  | nil => simp [Tables.ByAlias]
  | cons tt rest ih =>
    by_cases h : tt.Alias = a
    · simp [Tables.ByAlias, h]
    · simp [Tables.ByAlias, h, ih]

theorem ByAlias_eq_some (a : String) (t : Table) :
    ∀ ts : List Table, Tables.ByAlias ts a = some t ↔
      ∃ before after, ts = before ++ t :: after ∧ t.Alias = a ∧ ∀ u ∈ before, u.Alias ≠ a := by
  intro ts
  induction ts with
  | nil => simp [Tables.ByAlias]
  | cons tt rest ih =>
    by_cases h : tt.Alias = a
    · simp only [Tables.ByAlias, h, if_true, Option.some.injEq]
      constructor
      · rintro rfl
        exact ⟨[], rest, rfl, h, fun u hu => by cases hu⟩
      · rintro ⟨before, after, hts, -, hbefore⟩
        cases before with
        | nil =>
          simp only [List.nil_append, List.cons.injEq] at hts
          exact hts.1
        | cons b bs =>
          simp only [List.cons_append, List.cons.injEq] at hts
          exact absurd (hts.1 ▸ h) (hbefore b (by simp))
    · simp only [Tables.ByAlias, h, if_false, ih]
      constructor
      · rintro ⟨before, after, hts, ha, hbefore⟩
        refine ⟨tt :: before, after, by simp [hts], ha, ?_⟩
        intro u hu
        rcases List.mem_cons.1 hu with rfl | hu'
        · exact h
        · exact hbefore u hu'
      · rintro ⟨before, after, hts, ha, hbefore⟩
        cases before with
        | nil =>
          simp only [List.nil_append, List.cons.injEq] at hts
          exact absurd (hts.1 ▸ ha) h
        | cons b bs =>
          simp only [List.cons_append, List.cons.injEq] at hts
          exact ⟨bs, after, hts.2, ha, fun u hu => hbefore u (by simp [hu])⟩

/-- C16: `Tables.ByAlias` finds nothing if and only if no table of the collection has the
alias as its `Alias()`; it returns `t` if and only if `t` is the first table in collection
order whose `Alias()` is the alias; and a table of the collection without an alias is found
(it, or an earlier table of the same `Alias()`) under its base name. -/
theorem ByAlias_first_match (ts : List Table) (a : String) :
    (Tables.ByAlias ts a = none ↔ ∀ t ∈ ts, t.Alias ≠ a) ∧
    (∀ t, Tables.ByAlias ts a = some t ↔
      ∃ before after, ts = before ++ t :: after ∧ t.Alias = a ∧
        ∀ u ∈ before, u.Alias ≠ a) ∧
    (∀ t ∈ ts, t.aliasName = "" →
      ∃ u, Tables.ByAlias ts t.name = some u ∧ u.Alias = t.name) := by
  refine ⟨ByAlias_eq_none a ts, fun t => ByAlias_eq_some a t ts, ?_⟩
  intro t ht hempty
  have halias : t.Alias = t.name := by simp [Table.Alias, hempty]
  cases hres : Tables.ByAlias ts t.name with
  | none => exact absurd halias ((ByAlias_eq_none t.name ts).1 hres t ht)
  | some u =>
    obtain ⟨_, _, _, hu, _⟩ := (ByAlias_eq_some t.name u ts).1 hres
    exact ⟨u, rfl, hu⟩

/-- Witness of C16 on `users`, `orders AS o`, `old AS o`: the alias `o` finds `orders`,
the first of the two tables with that alias, and `users` is found under its base name. -/
theorem ByAlias_first_match_witness :
    (∃ before after, sampleTables = before ++ NewTableWithAlias "orders" "o" :: after ∧
      (NewTableWithAlias "orders" "o").Alias = "o" ∧ ∀ u ∈ before, u.Alias ≠ "o") ∧
    (∃ u, Tables.ByAlias sampleTables (NewTable "users").name = some u ∧
      u.Alias = (NewTable "users").name) :=
  ⟨((ByAlias_first_match sampleTables "o").2.1 (NewTableWithAlias "orders" "o")).1 (by decide),
   (ByAlias_first_match sampleTables "users").2.2 (NewTable "users") (by decide) rfl⟩

/-- C17 (the code at the failing input): for the declaration `t` with the children `x`
and `AS a`, in this order, `NewTableFromDecl` returns the table `t` without alias, while
`tableAlias` returns the alias `a`. -/
theorem NewTableFromDecl_ignores_later_as :
    NewTableFromDecl asSecondDecl = some (NewTable "t") ∧
    (NewTable "t").aliasName = "" ∧
    tableAlias asSecondDecl = some "a" :=
  ⟨rfl, rfl, rfl⟩

/-- C19 (the code at the failing input): on the declaration `TABLE` whose only child is
the `IF NOT EXISTS` chain, with an executor registered for `IF` that succeeds,
`createTableExecutor` returns no error: the first loop ends with `i` equal to the number of
children and `tableDecl.Decl[i]` is read out of range. -/
theorem createTableExecutor_only_if_panics :
    onlyIfTableDecl.Decl.length = 1 ∧
    (createTableExecutor sampleRegistry onlyIfTableDecl emptyWorld).1 = .panic :=
  ⟨rfl, rfl⟩

end Engine

namespace Parser

open TokenKind

/-! ### Cursor primitives -/

@[simp] theorem Result.ok_bind {α β : Type} (a : α) (f : α → Result β) :
    (Result.ok a).bind f = f a := rfl

@[simp] theorem Result.error_bind {α β : Type} (e : ParseError) (f : α → Result β) :
    (Result.error e : Result α).bind f = .error e := rfl

@[simp] theorem Result.panic_bind {α β : Type} (f : α → Result β) :
    (Result.panic : Result α).bind f = .panic := rfl

@[simp] theorem Result.outOfFuel_bind {α β : Type} (f : α → Result β) :
    (Result.outOfFuel : Result α).bind f = .outOfFuel := rfl

theorem getElem?_of_drop {tokens : List Token} {i : Nat} {t : Token} {rest : List Token}
    (h : tokens.drop i = t :: rest) : tokens[i]? = some t := by
  have := List.getElem?_drop tokens i 0
  rw [h] at this
  simpa using this.symm

theorem drop_succ_of_drop {tokens : List Token} {i : Nat} {t : Token} {rest : List Token}
    (h : tokens.drop i = t :: rest) : tokens.drop (i + 1) = rest := by
  rw [← List.drop_drop, h]
  rfl

theorem drop_add_of_drop {tokens : List Token} {i : Nat} {seg rest : List Token}
    (h : tokens.drop i = seg ++ rest) : tokens.drop (i + seg.length) = rest := by
  rw [← List.drop_drop, h]
  simp

theorem cur_of_getElem? {tokens : List Token} {i : Nat} {t : Token}
    (h : tokens[i]? = some t) : cur tokens i = .ok t := by
  simp [cur, h]

theorem isNot_of_getElem? {tokens : List Token} {i : Nat} {t : Token}
    (h : tokens[i]? = some t) (kinds : List TokenKind) :
    isNot tokens i kinds = .ok (!decide (t.Token ∈ kinds)) := by
  simp [isNot, is, cur, h]

theorem is_of_getElem? {tokens : List Token} {i : Nat} {t : Token}
    (h : tokens[i]? = some t) (kinds : List TokenKind) :
    is tokens i kinds = .ok (decide (t.Token ∈ kinds)) := by
  simp [is, cur, h]

theorem consumeToken_of_getElem? {tokens : List Token} {i : Nat} {t : Token}
    (h : tokens[i]? = some t) {kinds : List TokenKind} (hk : t.Token ∈ kinds) :
    consumeToken tokens i kinds = .ok (NewDecl t, i + 1) := by
  simp [consumeToken, cur, h, hk]

/-- The three ways in which an iteration of the constraint loop does nothing. -/
theorem constraintLoop_stuck (sh : Shared) (tokens : List Token) (col : Column) (i : Nat)
    (t : Token) (ht : tokens[i]? = some t)
    (hstuck :
      (t.Token = NotToken ∧ ∀ u, isNext tokens i NullToken ≠ .ok u) ∨
      (t.Token = PrimaryToken ∧ ∀ u, isNext tokens i KeyToken ≠ .ok u) ∨
      (t.Token = WithToken ∧ sh.toLower col.newAttributeType.Lexeme ≠ "timestamp")) :
    ∀ fuel, constraintLoop sh tokens fuel col i = .outOfFuel := by
  intro fuel
  induction fuel with
  | zero => rfl
  | succ n ih =>
    rcases hstuck with ⟨hk, hn⟩ | ⟨hk, hn⟩ | ⟨hk, hn⟩
    · simp only [constraintLoop, isNot_of_getElem? ht, cur_of_getElem? ht, Result.ok_bind, hk]
      cases hnext : isNext tokens i NullToken with
      | ok u => exact absurd hnext (hn u)
      | error e => simpa using ih
      | panic => simpa using ih
      | outOfFuel => simpa using ih
    · simp only [constraintLoop, isNot_of_getElem? ht, cur_of_getElem? ht, Result.ok_bind, hk]
      cases hnext : isNext tokens i KeyToken with
      | ok u => exact absurd hnext (hn u)
      | error e => simpa using ih
      | panic => simpa using ih
      | outOfFuel => simpa using ih
    · simp only [constraintLoop, isNot_of_getElem? ht, cur_of_getElem? ht, Result.ok_bind, hk]
      simpa [hn] using ih

/-! ### Inputs on which the constraint loop does not end -/

theorem getElem?_lt_length {tokens : List Token} {i : Nat} {t : Token}
    (h : tokens[i]? = some t) : i < tokens.length := by
  by_contra hlt
  rw [List.getElem?_eq_none (Nat.le_of_not_lt hlt)] at h
  cases h

/-- A column whose constraint loop does not end keeps the column loop from ending. -/
theorem columnLoop_outOfFuel_of_constraintLoop (sh : Shared) (tokens : List Token)
    (tableDecl : Decl) (i : Nat) (t : Token) (a ty : Decl) (j k : Nat)
    (hi : tokens[i]? = some t)
    (ht1 : t.Token ≠ PrimaryToken) (ht2 : t.Token ≠ BracketClosingToken)
    (ha : sh.parseQuotedToken tokens i = (.ok a, j))
    (hty : sh.parseType tokens j = (.ok ty, k))
    (hloop : ∀ fuel, constraintLoop sh tokens fuel ⟨a, ty, []⟩ k = .outOfFuel) :
    ∀ fuel, columnLoop sh tokens fuel tableDecl i = .outOfFuel := by
  intro fuel
  cases fuel with
  | zero => rfl
  | succ n =>
    simp only [columnLoop, getElem?_lt_length hi, if_true, cur_of_getElem? hi, Result.ok_bind,
      if_neg ht1, if_neg ht2, ha, hty, Result.ofExcept, hloop n, Result.outOfFuel_bind]

/-- C4 (the code at the failing inputs): on `CREATE TABLE t ( id INT NOT x )` and on
`CREATE TABLE t ( id INT PRIMARY x )`, with the cursor on `TABLE`, `parseTable` neither
returns a declaration nor an error: whatever the fuel, the constraint loop is still
running at `NOT` (at `PRIMARY`), where an iteration consumes nothing. -/
theorem parseTable_constraint_without_follower_diverges :
    (∀ fuel, parseTable bareShared fuel notWithoutNull 1 = .outOfFuel) ∧
    (∀ fuel, parseTable bareShared fuel primaryWithoutKey 1 = .outOfFuel) := by
  constructor
  · intro fuel
    have hhead : parseTable bareShared fuel notWithoutNull 1
        = columnLoop bareShared notWithoutNull fuel
            ((NewDecl (keyword TableToken "TABLE")).Add (NewDecl (word "t"))) 4 := rfl
    rw [hhead]
    exact columnLoop_outOfFuel_of_constraintLoop bareShared notWithoutNull _ 4 (word "id")
      (NewDecl (word "id")) (NewDecl (word "INT")) 5 6 rfl (by decide) (by decide) rfl rfl
      (constraintLoop_stuck bareShared notWithoutNull _ 6 (keyword NotToken "NOT") rfl
        (Or.inl ⟨rfl, fun u h => by cases h⟩)) fuel
  · intro fuel
    have hhead : parseTable bareShared fuel primaryWithoutKey 1
        = columnLoop bareShared primaryWithoutKey fuel
            ((NewDecl (keyword TableToken "TABLE")).Add (NewDecl (word "t"))) 4 := rfl
    rw [hhead]
    exact columnLoop_outOfFuel_of_constraintLoop bareShared primaryWithoutKey _ 4 (word "id")
      (NewDecl (word "id")) (NewDecl (word "INT")) 5 6 rfl (by decide) (by decide) rfl rfl
      (constraintLoop_stuck bareShared primaryWithoutKey _ 6 (keyword PrimaryToken "PRIMARY")
        rfl (Or.inr (Or.inl ⟨rfl, fun u h => by cases h⟩))) fuel

/-- C6 (the code at the failing input): on `CREATE TABLE t ( created INT WITH TIME ZONE )`,
with the cursor on `TABLE`, `parseTable` returns no `SyntaxError`, and nothing else:
whatever the fuel, the constraint loop is still running at `WITH`, which the `WITH` case
leaves in place when the type is not `timestamp`. -/
theorem parseTable_with_after_int_diverges :
    ∀ fuel, parseTable bareShared fuel withAfterInt 1 = .outOfFuel := by
  intro fuel
  have hhead : parseTable bareShared fuel withAfterInt 1
      = columnLoop bareShared withAfterInt fuel
          ((NewDecl (keyword TableToken "TABLE")).Add (NewDecl (word "t"))) 4 := rfl
  rw [hhead]
  exact columnLoop_outOfFuel_of_constraintLoop bareShared withAfterInt _ 4 (word "created")
    (NewDecl (word "created")) (NewDecl (word "INT")) 5 6 rfl (by decide) (by decide) rfl rfl
    (constraintLoop_stuck bareShared withAfterInt _ 6 (keyword WithToken "WITH") rfl
      (Or.inr (Or.inr ⟨rfl, by decide⟩))) fuel

/-! ### One iteration of the constraint loop -/

theorem hasNext_of_getElem? {tokens : List Token} {i : Nat} {u : Token}
    (h : tokens[i + 1]? = some u) : hasNext tokens i = true := by
  simp [hasNext, getElem?_lt_length h]

theorem next_of_getElem? {tokens : List Token} {i : Nat} {u : Token}
    (h : tokens[i + 1]? = some u) : next tokens i = .ok (i + 1) := by
  simp [next, hasNext_of_getElem? h]

theorem isNext_of_getElem? {tokens : List Token} {i : Nat} {u : Token} {kind : TokenKind}
    (h : tokens[i + 1]? = some u) (hk : u.Token = kind) : isNext tokens i kind = .ok u := by
  simp [isNext, h, hk]

theorem constraintLoop_end (sh : Shared) {tokens : List Token} {i : Nat} {t : Token}
    (h0 : tokens[i]? = some t) (hk : t.Token ∈ [BracketClosingToken, CommaToken])
    (n : Nat) (col : Column) :
    constraintLoop sh tokens (n + 1) col i = .ok (col, i) := by
  simp [constraintLoop, isNot_of_getElem? h0, hk]

theorem constraintLoop_unique (sh : Shared) {tokens : List Token} {i : Nat} {t : Token}
    (h0 : tokens[i]? = some t) (hk : t.Token = UniqueToken) (n : Nat) (col : Column) :
    constraintLoop sh tokens (n + 1) col i
      = constraintLoop sh tokens n (col.addConstraint (NewDecl t)) (i + 1) := by
  simp [constraintLoop, isNot_of_getElem? h0, cur_of_getElem? h0, hk,
    consumeToken_of_getElem? h0]

theorem constraintLoop_autoincrement (sh : Shared) {tokens : List Token} {i : Nat} {t : Token}
    (h0 : tokens[i]? = some t) (hk : t.Token = AutoincrementToken) (n : Nat) (col : Column) :
    constraintLoop sh tokens (n + 1) col i
      = constraintLoop sh tokens n (col.addConstraint (NewDecl t)) (i + 1) := by
  simp [constraintLoop, isNot_of_getElem? h0, cur_of_getElem? h0, hk,
    consumeToken_of_getElem? h0]

theorem constraintLoop_notNull (sh : Shared) {tokens : List Token} {i : Nat} {t t1 : Token}
    (h0 : tokens[i]? = some t) (hk : t.Token = NotToken)
    (h1 : tokens[i + 1]? = some t1) (hk1 : t1.Token = NullToken) (n : Nat) (col : Column) :
    constraintLoop sh tokens (n + 1) col i
      = constraintLoop sh tokens n (col.addConstraint ((NewDecl t).Add (NewDecl t1))) (i + 2) := by
  simp [constraintLoop, isNot_of_getElem? h0, cur_of_getElem? h0, hk,
    consumeToken_of_getElem? h0, consumeToken_of_getElem? h1, isNext_of_getElem? h1 hk1, hk1]

theorem constraintLoop_primaryKey (sh : Shared) {tokens : List Token} {i : Nat}
    {t t1 t2 : Token}
    (h0 : tokens[i]? = some t) (hk : t.Token = PrimaryToken)
    (h1 : tokens[i + 1]? = some t1) (hk1 : t1.Token = KeyToken)
    (h2 : tokens[i + 1 + 1]? = some t2) (n : Nat) (col : Column) :
    constraintLoop sh tokens (n + 1) col i
      = constraintLoop sh tokens n (col.addConstraint ((NewDecl t).Add (NewDecl t1))) (i + 2) := by
  simp [constraintLoop, isNot_of_getElem? h0, cur_of_getElem? h0, hk, h0, h1,
    isNext_of_getElem? h1 hk1, next_of_getElem? h1, next_of_getElem? h2]

theorem constraintLoop_withTimeZone (sh : Shared) {tokens : List Token} {i : Nat}
    {t t1 t2 : Token} (col : Column)
    (h0 : tokens[i]? = some t) (hk : t.Token = WithToken)
    (h1 : tokens[i + 1]? = some t1) (hk1 : t1.Token = TimeToken)
    (h2 : tokens[i + 1 + 1]? = some t2) (hk2 : t2.Token = ZoneToken)
    (hts : sh.toLower col.newAttributeType.Lexeme = "timestamp") (n : Nat) :
    constraintLoop sh tokens (n + 1) col i
      = constraintLoop sh tokens n
          { col with newAttributeType :=
              col.newAttributeType.Add ((NewDecl t).Add ((NewDecl t1).Add (NewDecl t2))) }
          (i + 3) := by
  simp [constraintLoop, isNot_of_getElem? h0, cur_of_getElem? h0, hk, hk1, hk2, hts,
    consumeToken_of_getElem? h0, consumeToken_of_getElem? h1, consumeToken_of_getElem? h2]

theorem constraintLoop_defaultValue (sh : Shared) {tokens : List Token} {i : Nat}
    {t t1 : Token}
    (h0 : tokens[i]? = some t) (hk : t.Token = DefaultToken)
    (h1 : tokens[i + 1]? = some t1) (hk1 : t1.Token ∈ defaultValueKinds)
    (n : Nat) (col : Column) :
    constraintLoop sh tokens (n + 1) col i
      = constraintLoop sh tokens n (col.addConstraint ((NewDecl t).Add (NewDecl t1))) (i + 2) := by
  have hk1' : t1.Token ∈ [FalseToken, StringToken, NumberToken, LocalTimestampToken] := hk1
  simp [constraintLoop, isNot_of_getElem? h0, cur_of_getElem? h0, hk,
    consumeToken_of_getElem? h0, consumeToken_of_getElem? h1 hk1']

/-! ### The constraint loop on well-formed constraint clauses -/

theorem exists_getElem?_of_drop {tokens : List Token} {j : Nat} {l : List Token}
    (h : tokens.drop j = l) (hl : l ≠ []) : ∃ t, tokens[j]? = some t := by
  cases l with
  | nil => exact absurd rfl hl
  | cons t rest => exact ⟨t, getElem?_of_drop h⟩

theorem Column.extend_nil (col : Column) : col.extend [] = col := by
  cases col with
  | mk a ty cs =>
    cases ty
    simp [Column.extend]

theorem length_le_constraintsTokens (cs : List Constraint) :
    cs.length ≤ (constraintsTokens cs).length := by
  induction cs with
  | nil => simp [constraintsTokens]
  | cons c cs ih =>
    cases c <;> simp [constraintsTokens, Constraint.tokens] <;> omega

theorem constraintLoop_constraints (sh : Shared) (tokens : List Token) :
    ∀ (cs : List Constraint) (n i : Nat) (col : Column) (rest : List Token),
      tokens.drop i = constraintsTokens cs ++ rest → rest ≠ [] →
      (∀ c ∈ cs, c.WellFormed sh col.newAttributeType.Lexeme) →
      constraintLoop sh tokens (cs.length + n) col i
        = constraintLoop sh tokens n (col.extend cs) (i + (constraintsTokens cs).length) := by
  intro cs
  induction cs with
  | nil =>
    intro n i col rest _ _ _
    simp [constraintsTokens, Column.extend_nil]
  | cons c cs ih =>
    intro n i col rest hdrop hrest hwf
    have hfuel : (c :: cs).length + n = (cs.length + n) + 1 := by simp; omega
    have hwf' : ∀ k ∈ cs, k.WellFormed sh col.newAttributeType.Lexeme :=
      fun k hk => hwf k (by simp [hk])
    have hc := hwf c (by simp)
    rw [hfuel]
    cases c with
    | unique u =>
      simp only [constraintsTokens, Constraint.tokens, List.cons_append, List.nil_append] at hdrop
      have h0 := getElem?_of_drop hdrop
      have hd1 := drop_succ_of_drop hdrop
      rw [constraintLoop_unique sh h0 rfl,
        ih n (i + 1) (col.addConstraint (NewDecl ⟨UniqueToken, u⟩)) rest hd1 hrest hwf']
      congr 1
      · simp [Column.extend, Column.addConstraint, NewDecl, Constraint.node,
          Constraint.typeNode]
      · simp [constraintsTokens, Constraint.tokens]; omega
    | autoincrement a =>
      simp only [constraintsTokens, Constraint.tokens, List.cons_append, List.nil_append] at hdrop
      have h0 := getElem?_of_drop hdrop
      have hd1 := drop_succ_of_drop hdrop
      rw [constraintLoop_autoincrement sh h0 rfl,
        ih n (i + 1) (col.addConstraint (NewDecl ⟨AutoincrementToken, a⟩)) rest hd1 hrest hwf']
      congr 1
      · simp [Column.extend, Column.addConstraint, NewDecl, Constraint.node,
          Constraint.typeNode]
      · simp [constraintsTokens, Constraint.tokens]; omega
    | notNull a b =>
      simp only [constraintsTokens, Constraint.tokens, List.cons_append, List.nil_append] at hdrop
      have h0 := getElem?_of_drop hdrop
      have hd1 := drop_succ_of_drop hdrop
      have h1 := getElem?_of_drop hd1
      have hd2 := drop_succ_of_drop hd1
      rw [constraintLoop_notNull sh h0 rfl h1 rfl,
        ih n (i + 2)
          (col.addConstraint ((NewDecl ⟨NotToken, a⟩).Add (NewDecl ⟨NullToken, b⟩)))
          rest hd2 hrest hwf']
      congr 1
      · simp [Column.extend, Column.addConstraint, NewDecl, Constraint.node,
          Constraint.typeNode, Decl.Add]
      · simp [constraintsTokens, Constraint.tokens]; omega
    | primaryKey a b =>
      simp only [constraintsTokens, Constraint.tokens, List.cons_append, List.nil_append] at hdrop
      have h0 := getElem?_of_drop hdrop
      have hd1 := drop_succ_of_drop hdrop
      have h1 := getElem?_of_drop hd1
      have hd2 := drop_succ_of_drop hd1
      obtain ⟨t2, h2⟩ := exists_getElem?_of_drop hd2 (by simp [hrest])
      rw [constraintLoop_primaryKey sh h0 rfl h1 rfl h2,
        ih n (i + 2)
          (col.addConstraint ((NewDecl ⟨PrimaryToken, a⟩).Add (NewDecl ⟨KeyToken, b⟩)))
          rest hd2 hrest hwf']
      congr 1
      · simp [Column.extend, Column.addConstraint, NewDecl, Constraint.node,
          Constraint.typeNode, Decl.Add]
      · simp [constraintsTokens, Constraint.tokens]; omega
    | withTimeZone a b z =>
      simp only [constraintsTokens, Constraint.tokens, List.cons_append, List.nil_append] at hdrop
      have h0 := getElem?_of_drop hdrop
      have hd1 := drop_succ_of_drop hdrop
      have h1 := getElem?_of_drop hd1
      have hd2 := drop_succ_of_drop hd1
      have h2 := getElem?_of_drop hd2
      have hd3 := drop_succ_of_drop hd2
      rw [constraintLoop_withTimeZone sh col h0 rfl h1 rfl h2 rfl hc,
        ih n (i + 3)
          { col with newAttributeType :=
              col.newAttributeType.Add ((NewDecl ⟨WithToken, a⟩).Add
                ((NewDecl ⟨TimeToken, b⟩).Add (NewDecl ⟨ZoneToken, z⟩))) }
          rest hd3 hrest hwf']
      congr 1
      · simp [Column.extend, NewDecl, Constraint.node, Constraint.typeNode, Decl.Add]
      · simp [constraintsTokens, Constraint.tokens]; omega
    | defaultValue d v =>
      simp only [constraintsTokens, Constraint.tokens, List.cons_append, List.nil_append] at hdrop
      have h0 := getElem?_of_drop hdrop
      have hd1 := drop_succ_of_drop hdrop
      have h1 := getElem?_of_drop hd1
      have hd2 := drop_succ_of_drop hd1
      rw [constraintLoop_defaultValue sh h0 rfl h1 hc,
        ih n (i + 2) (col.addConstraint ((NewDecl ⟨DefaultToken, d⟩).Add (NewDecl v)))
          rest hd2 hrest hwf']
      congr 1
      · simp [Column.extend, Column.addConstraint, NewDecl, Constraint.node,
          Constraint.typeNode, Decl.Add]
      · simp [constraintsTokens, Constraint.tokens]; omega

/-! ### The column loop on well-formed column clauses -/

theorem Column.decl_extend (c : ColumnClause) :
    (Column.extend ⟨NewDecl (word c.name), NewDecl (word c.type), []⟩ c.constraints).decl
      = c.decl := by
  simp [Column.decl, Column.extend, NewDecl, word, ColumnClause.decl]

/-- One well-formed column clause followed by a comma or a closing bracket. -/
theorem columnLoop_column (sh : Shared) (tokens : List Token) (hbare : BareWords sh tokens)
    (c : ColumnClause) (hwf : c.WellFormed sh) (n i : Nat) (tableDecl : Decl)
    (sep : Token) (rest : List Token)
    (hdrop : tokens.drop i = c.tokens ++ sep :: rest)
    (hsep : sep.Token ∈ [BracketClosingToken, CommaToken])
    (hfuel : c.constraints.length < n) :
    columnLoop sh tokens (n + 1) tableDecl i =
      if sep.Token = BracketClosingToken then
        .ok (tableDecl.Add c.decl, i + c.tokens.length + 1)
      else columnLoop sh tokens n (tableDecl.Add c.decl) (i + c.tokens.length + 1) := by
  simp only [ColumnClause.tokens, List.cons_append] at hdrop
  have h0 := getElem?_of_drop hdrop
  have hd1 := drop_succ_of_drop hdrop
  have h1 := getElem?_of_drop hd1
  have hd2 := drop_succ_of_drop hd1
  have hq := (hbare i (word c.name) h0 rfl).2.1
  have hty := (hbare (i + 1) (word c.type) h1 rfl).2.2
  obtain ⟨m, hm⟩ := Nat.exists_eq_add_of_lt hfuel
  have hn : n = c.constraints.length + (m + 1) := by omega
  have hloop := constraintLoop_constraints sh tokens c.constraints (m + 1) (i + 1 + 1)
    ⟨NewDecl (word c.name), NewDecl (word c.type), []⟩ (sep :: rest) hd2 (by simp) hwf
  have hd3 := drop_add_of_drop hd2
  have h3 := getElem?_of_drop hd3
  rw [constraintLoop_end sh h3 hsep] at hloop
  have hne1 : (word c.name).Token ≠ PrimaryToken := by simp [word]
  have hne2 : (word c.name).Token ≠ BracketClosingToken := by simp [word]
  simp only [columnLoop, getElem?_lt_length h0, if_true, cur_of_getElem? h0, Result.ok_bind,
    if_neg hne1, if_neg hne2, hq, hty, Result.ofExcept]
  rw [hn, hloop]
  simp only [Result.ok_bind, h3, Column.decl_extend, ColumnClause.tokens, List.length_cons]
  have hidx : i + 1 + 1 + (constraintsTokens c.constraints).length + 1
      = i + ((constraintsTokens c.constraints).length + 1 + 1) + 1 := by omega
  rw [hidx]

theorem decl_eta (d : Parser.Decl) :
    ({ Token := d.Token, Lexeme := d.Lexeme, Decl := d.Decl } : Parser.Decl) = d := by
  cases d
  rfl

theorem ColumnClause.length_tokens (c : ColumnClause) :
    c.tokens.length = (constraintsTokens c.constraints).length + 2 := by
  simp [ColumnClause.tokens]

/-- Well-formed column clauses that are each followed by a comma. -/
theorem columnLoop_leading (sh : Shared) (tokens : List Token) (hbare : BareWords sh tokens) :
    ∀ (cols : List ColumnClause) (n i : Nat) (tableDecl : Decl) (rest : List Token),
      tokens.drop i = leadingColumnsTokens cols ++ rest →
      (∀ c ∈ cols, c.WellFormed sh) → (∀ c ∈ cols, c.constraints.length < n) →
      columnLoop sh tokens (cols.length + n) tableDecl i
        = columnLoop sh tokens n
            { tableDecl with Decl := tableDecl.Decl ++ cols.map ColumnClause.decl }
            (i + (leadingColumnsTokens cols).length) := by
  intro cols
  induction cols with
  | nil =>
    intro n i tableDecl rest _ _ _
    simp [leadingColumnsTokens, decl_eta]
  | cons c cs ih =>
    intro n i tableDecl rest hdrop hwf hfuel
    have hdrop' : tokens.drop i = c.tokens ++ comma :: (leadingColumnsTokens cs ++ rest) := by
      rw [hdrop]; simp [leadingColumnsTokens]
    have hstep := columnLoop_column sh tokens hbare c (hwf c (by simp)) (cs.length + n) i
      tableDecl comma (leadingColumnsTokens cs ++ rest) hdrop' (by simp [comma])
      (by have := hfuel c (by simp); omega)
    have hcomma : ¬ comma.Token = BracketClosingToken := by simp [comma]
    rw [if_neg hcomma] at hstep
    have hd : tokens.drop (i + c.tokens.length + 1) = leadingColumnsTokens cs ++ rest := by
      have h1 := drop_add_of_drop hdrop'
      exact drop_succ_of_drop h1
    have hlen : (c :: cs).length + n = cs.length + n + 1 := by simp; omega
    rw [hlen, hstep, ih n (i + c.tokens.length + 1) (tableDecl.Add c.decl) rest hd
      (fun k hk => hwf k (by simp [hk])) (fun k hk => hfuel k (by simp [hk]))]
    congr 1
    · simp [Decl.Add]
    · simp [leadingColumnsTokens]; omega

/-- A complete column list: well-formed column clauses separated by commas, then the
closing bracket. -/
theorem columnLoop_columns (sh : Shared) (tokens : List Token) (hbare : BareWords sh tokens) :
    ∀ (cols : List ColumnClause) (n i : Nat) (tableDecl : Decl) (rest : List Token),
      tokens.drop i = columnsTokens cols ++ rest →
      (∀ c ∈ cols, c.WellFormed sh) → (∀ c ∈ cols, c.constraints.length < n) →
      columnLoop sh tokens (cols.length + n + 1) tableDecl i
        = .ok ({ tableDecl with Decl := tableDecl.Decl ++ cols.map ColumnClause.decl },
            i + (columnsTokens cols).length) := by
  intro cols
  induction cols with
  | nil =>
    intro n i tableDecl rest hdrop _ _
    simp only [columnsTokens, List.cons_append, List.nil_append] at hdrop
    have h0 := getElem?_of_drop hdrop
    have hne1 : closingBracket.Token ≠ PrimaryToken := by simp [closingBracket]
    have hcl : closingBracket.Token = BracketClosingToken := rfl
    simp [columnLoop, getElem?_lt_length h0, cur_of_getElem? h0, hcl,
      consumeToken_of_getElem? h0 (List.mem_singleton.2 hcl), decl_eta, columnsTokens]
  | cons c cs ih =>
    intro n i tableDecl rest hdrop hwf hfuel
    cases cs with
    | nil =>
      have hdrop' : tokens.drop i = c.tokens ++ closingBracket :: rest := by
        rw [hdrop]; simp [columnsTokens]
      have hstep := columnLoop_column sh tokens hbare c (hwf c (by simp)) (n + 1) i
        tableDecl closingBracket rest hdrop' (by simp [closingBracket])
        (by have := hfuel c (by simp); omega)
      have hcl : closingBracket.Token = BracketClosingToken := rfl
      rw [if_pos hcl] at hstep
      have hlen : [c].length + n + 1 = n + 1 + 1 := by simp; omega
      rw [hlen, hstep]
      simp [Decl.Add, columnsTokens]
      omega
    | cons c1 cs1 =>
      have hdrop' : tokens.drop i
          = c.tokens ++ comma :: (columnsTokens (c1 :: cs1) ++ rest) := by
        rw [hdrop]; simp [columnsTokens]
      have hstep := columnLoop_column sh tokens hbare c (hwf c (by simp))
        ((c1 :: cs1).length + n + 1) i tableDecl comma (columnsTokens (c1 :: cs1) ++ rest)
        hdrop' (by simp [comma]) (by have := hfuel c (by simp); omega)
      have hcomma : ¬ comma.Token = BracketClosingToken := by simp [comma]
      rw [if_neg hcomma] at hstep
      have hd : tokens.drop (i + c.tokens.length + 1) = columnsTokens (c1 :: cs1) ++ rest := by
        have h1 := drop_add_of_drop hdrop'
        exact drop_succ_of_drop h1
      have hlen : (c :: c1 :: cs1).length + n + 1 = (c1 :: cs1).length + n + 1 + 1 := by
        simp; omega
      rw [hlen, hstep, ih n (i + c.tokens.length + 1) (tableDecl.Add c.decl) rest hd
        (fun k hk => hwf k (by simp [hk])) (fun k hk => hfuel k (by simp [hk]))]
      congr 1
      · congr 1
        · simp [Decl.Add]
        · simp [columnsTokens]; omega

/-- The head of `parseTable` on `TABLE name (` followed by something. -/
theorem parseTable_header (sh : Shared) (tokens : List Token) (hbare : BareWords sh tokens)
    (i : Nat) (table : Token) (name : String) (body : List Token)
    (hdrop : tokens.drop i = table :: word name :: openingBracket :: body)
    (hbody : body ≠ []) (fuel : Nat) :
    parseTable sh fuel tokens i
      = columnLoop sh tokens fuel ((NewDecl table).Add (NewDecl (word name))) (i + 3) := by
  have h0 := getElem?_of_drop hdrop
  have hd1 := drop_succ_of_drop hdrop
  have h1 := getElem?_of_drop hd1
  have hd2 := drop_succ_of_drop hd1
  have h2 := getElem?_of_drop hd2
  have hd3 := drop_succ_of_drop hd2
  obtain ⟨t3, h3⟩ := exists_getElem?_of_drop hd3 hbody
  have hname := (hbare (i + 1) (word name) h1 rfl).1
  simp only [word] at hname
  simp [parseTable, h0, parseIfNotExists, is_of_getElem? h1, word, parseTableName,
    expectTableDefinition, hasNext_of_getElem? h3, h2, openingBracket, hname]

/-! ### `parseTable` and `parseCreate` on well-formed token sequences -/

theorem columnsTokens_ne_nil (cols : List ColumnClause) : columnsTokens cols ≠ [] := by
  cases cols with
  | nil => simp [columnsTokens]
  | cons c cs =>
    cases cs <;> simp [columnsTokens, ColumnClause.tokens]

theorem length_columnsTokens_ge :
    ∀ (cols : List ColumnClause), ∀ c ∈ cols,
      c.constraints.length + cols.length + 2 ≤ (columnsTokens cols).length := by
  intro cols
  induction cols with
  | nil => intro c hc; cases hc
  | cons c0 cs ih =>
    intro c hc
    have h0 := length_le_constraintsTokens c0.constraints
    cases cs with
    | nil =>
      simp only [List.mem_singleton] at hc
      subst hc
      simp [columnsTokens, ColumnClause.tokens]
      omega
    | cons c1 cs1 =>
      have h1 := ih c1 (by simp)
      simp only [columnsTokens, List.length_append, List.length_cons,
        ColumnClause.length_tokens] at h1 ⊢
      rcases List.mem_cons.1 hc with rfl | hc'
      · omega
      · have h2 := ih c hc'
        simp only [columnsTokens, List.length_append, List.length_cons,
          ColumnClause.length_tokens] at h2
        omega

theorem tableDeclOf_eq (table : Token) (name : String) (cols : List ColumnClause) :
    ({ Token := ((NewDecl table).Add (NewDecl (word name))).Token
       Lexeme := ((NewDecl table).Add (NewDecl (word name))).Lexeme
       Decl := ((NewDecl table).Add (NewDecl (word name))).Decl
          ++ cols.map ColumnClause.decl } : Parser.Decl)
      = tableDeclOf table name cols := by
  simp [tableDeclOf, NewDecl, Decl.Add, word]

/-- On `TABLE name ( columns )` with well-formed columns, `parseTable` returns the
declaration that the tokens stand for and leaves the cursor behind the closing bracket. -/
theorem parseTable_tableTokens (sh : Shared) (tokens : List Token)
    (hbare : BareWords sh tokens) (i : Nat) (table : Token) (name : String)
    (cols : List ColumnClause) (rest : List Token)
    (hdrop : tokens.drop i = tableTokens table name cols ++ rest)
    (hwf : ∀ c ∈ cols, c.WellFormed sh) (fuel : Nat)
    (hfuel : (tableTokens table name cols).length ≤ fuel) :
    parseTable sh fuel tokens i
      = .ok (tableDeclOf table name cols, i + (tableTokens table name cols).length) := by
  have hdrop' : tokens.drop i
      = table :: word name :: openingBracket :: (columnsTokens cols ++ rest) := by
    rw [hdrop]; simp [tableTokens]
  rw [parseTable_header sh tokens hbare i table name _ hdrop'
    (by simp [columnsTokens_ne_nil])]
  have hd3 : tokens.drop (i + 3) = columnsTokens cols ++ rest :=
    drop_succ_of_drop (drop_succ_of_drop (drop_succ_of_drop hdrop'))
  have hlen : (tableTokens table name cols).length = (columnsTokens cols).length + 3 := by
    simp [tableTokens]
  have hpos : 0 < (columnsTokens cols).length :=
    List.length_pos.2 (columnsTokens_ne_nil cols)
  have hge := length_columnsTokens_ge cols
  have hcl : cols.length + 1 ≤ fuel := by
    cases cols with
    | nil => simp; omega
    | cons c cs => have := hge c (by simp); omega
  obtain ⟨n, hn⟩ : ∃ n, fuel = cols.length + n + 1 := ⟨fuel - (cols.length + 1), by omega⟩
  rw [hn, columnLoop_columns sh tokens hbare cols n (i + 3) _ rest hd3 hwf
    (fun c hc => by have := hge c hc; omega), tableDeclOf_eq, hlen]
  congr 2
  omega

theorem bareShared_bareWords (tokens : List Token) : BareWords bareShared tokens := by
  intro i t h ht
  simp [bareShared, bareWord, h, ht]

theorem columnsMatch_decl (cols : List ColumnClause) :
    ColumnsMatch cols (cols.map ColumnClause.decl) := by
  unfold ColumnsMatch
  rw [List.forall₂_map_right_iff]
  exact List.forall₂_same.2 fun c _ => ⟨rfl, _, _, rfl, rfl, rfl⟩

/-- C5: on `CREATE TABLE name ( c1 T1 [constraints] , ... , cn Tn [constraints] )` with
`n ≥ 0` well-formed column clauses (token `table` of kind `TABLE`, names and types bare
words that the shared routines read as such), `parseCreate` with enough fuel succeeds; the
instruction holds the `CREATE` node with the table declaration as only child, whose
children are the table name followed by exactly `n` column declarations that match the
column clauses in order, each with the lexeme `ci` and the type `Ti` as first child. -/
theorem parseCreate_wellFormed (sh : Shared) (create table : Token) (name : String)
    (cols : List ColumnClause) (fuel : Nat)
    (htable : table.Token = TableToken)
    (hbare : BareWords sh (create :: tableTokens table name cols))
    (hwf : ∀ c ∈ cols, c.WellFormed sh)
    (hfuel : (create :: tableTokens table name cols).length ≤ fuel) :
    ∃ (columnDecls : List Decl) (j : Nat),
      parseCreate sh fuel (create :: tableTokens table name cols) 0
        = .ok (⟨[⟨create.Token, create.Lexeme,
                  [⟨table.Token, table.Lexeme, ⟨StringToken, name, []⟩ :: columnDecls⟩]⟩]⟩,
               j) ∧
      columnDecls.length = cols.length ∧ ColumnsMatch cols columnDecls := by
  refine ⟨cols.map ColumnClause.decl, (create :: tableTokens table name cols).length, ?_,
    by simp, columnsMatch_decl cols⟩
  have hparse := parseTable_tableTokens sh (create :: tableTokens table name cols) hbare 1
    table name cols [] (by simp) hwf fuel (by simp at hfuel ⊢; omega)
  have h1 : (create :: tableTokens table name cols)[0 + 1]? = some table := by
    simp [tableTokens]
  simp only [parseCreate, List.getElem?_cons_zero, hasNext_of_getElem? h1, h1, htable,
    Bool.not_true, Bool.false_eq_true, if_false, if_true, Nat.zero_add] at hparse ⊢
  rw [hparse]
  simp [tableDeclOf, NewDecl, Decl.Add]
  exact ⟨htable, by omega⟩

/-- Witness of C5 on `CREATE TABLE t ( id INT UNIQUE NOT NULL , ts TimeStamp WITH TIME
ZONE DEFAULT 1 PRIMARY KEY )`. -/
theorem parseCreate_wellFormed_witness :
    ∃ (columnDecls : List Decl) (j : Nat),
      parseCreate bareShared 30
          (keyword CreateToken "CREATE" ::
            tableTokens (keyword TableToken "TABLE") "t" sampleColumns) 0
        = .ok (⟨[⟨CreateToken, "CREATE",
                  [⟨TableToken, "TABLE", ⟨StringToken, "t", []⟩ :: columnDecls⟩]⟩]⟩, j) ∧
      columnDecls.length = sampleColumns.length ∧ ColumnsMatch sampleColumns columnDecls :=
  parseCreate_wellFormed bareShared (keyword CreateToken "CREATE")
    (keyword TableToken "TABLE") "t" sampleColumns 30 rfl (bareShared_bareWords _)
    (by
      intro c hc
      simp only [sampleColumns, List.mem_cons, List.mem_singleton, List.not_mem_nil,
        or_false] at hc
      rcases hc with rfl | rfl
      · intro k hk
        simp only [List.mem_cons, List.mem_singleton, List.not_mem_nil, or_false] at hk
        rcases hk with rfl | rfl <;> exact trivial
      · intro k hk
        simp only [List.mem_cons, List.mem_singleton, List.not_mem_nil, or_false] at hk
        rcases hk with rfl | rfl | rfl
        · show asciiLower "TimeStamp" = "timestamp"
          decide
        · show NumberToken ∈ defaultValueKinds
          decide
        · exact trivial)
    (by decide)

/-! ### Errors inside a column clause -/

theorem length_leadingColumnsTokens_ge (pre : List ColumnClause) :
    pre.length ≤ (leadingColumnsTokens pre).length ∧
    ∀ c ∈ pre, c.constraints.length + pre.length ≤ (leadingColumnsTokens pre).length := by
  induction pre with
  | nil => exact ⟨by simp, fun c hc => by cases hc⟩
  | cons c0 cs ih =>
    have h0 := length_le_constraintsTokens c0.constraints
    have hlen : (leadingColumnsTokens (c0 :: cs)).length
        = (constraintsTokens c0.constraints).length + 3 + (leadingColumnsTokens cs).length := by
      simp [leadingColumnsTokens, ColumnClause.tokens]; omega
    refine ⟨by rw [hlen]; simp; omega, fun c hc => ?_⟩
    rw [hlen]
    rcases List.mem_cons.1 hc with rfl | hc'
    · simp; omega
    · have := ih.2 c hc'
      simp; omega

/-- An error of the constraint loop of a column is the error of the column loop. -/
theorem columnLoop_error_of_constraintLoop (sh : Shared) (tokens : List Token)
    (tableDecl : Decl) (i : Nat) (t : Token) (a ty : Decl) (j k n : Nat) (e : ParseError)
    (hi : tokens[i]? = some t)
    (ht1 : t.Token ≠ PrimaryToken) (ht2 : t.Token ≠ BracketClosingToken)
    (ha : sh.parseQuotedToken tokens i = (.ok a, j))
    (hty : sh.parseType tokens j = (.ok ty, k))
    (hloop : constraintLoop sh tokens n ⟨a, ty, []⟩ k = .error e) :
    columnLoop sh tokens (n + 1) tableDecl i = .error e := by
  simp only [columnLoop, getElem?_lt_length hi, if_true, cur_of_getElem? hi, Result.ok_bind,
    if_neg ht1, if_neg ht2, ha, hty, Result.ofExcept, hloop, Result.error_bind]

/-- After `TABLE name (`, well-formed columns followed by commas, and a column with
well-formed constraint clauses, an error of the constraint loop at the tokens that follow
is the error of `parseTable`. -/
theorem parseTable_error_in_column (sh : Shared) (tokens : List Token)
    (hbare : BareWords sh tokens) (i : Nat) (table : Token) (name : String)
    (pre : List ColumnClause) (cname ctype : String) (cs : List Constraint)
    (tail : List Token)
    (hdrop : tokens.drop i = table :: word name :: openingBracket ::
      (leadingColumnsTokens pre ++ word cname :: word ctype :: (constraintsTokens cs ++ tail)))
    (htail : tail ≠ [])
    (hpre : ∀ c ∈ pre, c.WellFormed sh) (hcs : ∀ k ∈ cs, k.WellFormed sh ctype)
    (fuel : Nat) (hfuel : (tokens.drop i).length ≤ fuel)
    (herr : ∀ n col j, tokens.drop j = tail → col.newAttributeType.Lexeme = ctype →
      ∃ e, constraintLoop sh tokens (n + 1) col j = .error e) :
    ∃ e, parseTable sh fuel tokens i = .error e := by
  rw [parseTable_header sh tokens hbare i table name _ hdrop (by simp)]
  have hd3 : tokens.drop (i + 3) = leadingColumnsTokens pre ++
      (word cname :: word ctype :: (constraintsTokens cs ++ tail)) :=
    drop_succ_of_drop (drop_succ_of_drop (drop_succ_of_drop hdrop))
  have hge := length_leadingColumnsTokens_ge pre
  have hcsl := length_le_constraintsTokens cs
  have htl : 0 < tail.length := List.length_pos.2 htail
  have hlen : (tokens.drop i).length
      = (leadingColumnsTokens pre).length + (constraintsTokens cs).length + tail.length + 5 := by
    rw [hdrop]; simp; omega
  obtain ⟨m, hm⟩ : ∃ m, fuel = pre.length + (cs.length + (m + 1) + 1) :=
    ⟨fuel - pre.length - cs.length - 2, by omega⟩
  rw [hm, columnLoop_leading sh tokens hbare pre _ (i + 3) _ _ hd3 hpre
    (fun c hc => by have := hge.2 c hc; omega)]
  have hd4 := drop_add_of_drop hd3
  have h4 := getElem?_of_drop hd4
  have hd5 := drop_succ_of_drop hd4
  have h5 := getElem?_of_drop hd5
  have hd6 := drop_succ_of_drop hd5
  have hq := (hbare _ (word cname) h4 rfl).2.1
  have hty := (hbare _ (word ctype) h5 rfl).2.2
  have hloop := constraintLoop_constraints sh tokens cs (m + 1) _
    ⟨NewDecl (word cname), NewDecl (word ctype), []⟩ tail hd6 htail hcs
  obtain ⟨e, he⟩ := herr m
    (Column.extend ⟨NewDecl (word cname), NewDecl (word ctype), []⟩ cs) _
    (drop_add_of_drop hd6) rfl
  rw [he] at hloop
  exact ⟨e, columnLoop_error_of_constraintLoop sh tokens _ _ (word cname) _ _ _ _ _ e h4
    (by simp [word]) (by simp [word]) hq hty hloop⟩

theorem constraintLoop_with_error (sh : Shared) {tokens : List Token} {i : Nat} {t : Token}
    (col : Column) (h0 : tokens[i]? = some t) (hk : t.Token = WithToken)
    (hts : sh.toLower col.newAttributeType.Lexeme = "timestamp")
    (hbad : ¬ ∃ t1 t2, tokens[i + 1]? = some t1 ∧ t1.Token = TimeToken ∧
      tokens[i + 1 + 1]? = some t2 ∧ t2.Token = ZoneToken) (n : Nat) :
    ∃ e, constraintLoop sh tokens (n + 1) col i = .error e := by
  simp only [constraintLoop, isNot_of_getElem? h0, cur_of_getElem? h0, hk, hts,
    consumeToken_of_getElem? h0 (List.mem_singleton.2 hk), Result.ok_bind]
  cases h1 : tokens[i + 1]? with
  | none => simp [consumeToken, cur, h1]
  | some t1 =>
    by_cases hk1 : t1.Token = TimeToken
    · cases h2 : tokens[i + 1 + 1]? with
      | none => simp [consumeToken, cur, h1, hk1, h2]
      | some t2 =>
        by_cases hk2 : t2.Token = ZoneToken
        · exact absurd ⟨t1, t2, h1, hk1, h2, hk2⟩ hbad
        · simp [consumeToken, cur, h1, hk1, h2, hk2]
    · simp [consumeToken, cur, h1, hk1]

theorem constraintLoop_default_error (sh : Shared) {tokens : List Token} {i : Nat} {t : Token}
    (col : Column) (h0 : tokens[i]? = some t) (hk : t.Token = DefaultToken)
    (hbad : ∀ t1, tokens[i + 1]? = some t1 → t1.Token ∉ defaultValueKinds) (n : Nat) :
    ∃ e, constraintLoop sh tokens (n + 1) col i = .error e := by
  simp only [constraintLoop, isNot_of_getElem? h0, cur_of_getElem? h0, hk,
    consumeToken_of_getElem? h0 (List.mem_singleton.2 hk), Result.ok_bind]
  cases h1 : tokens[i + 1]? with
  | none => simp [consumeToken, cur, h1]
  | some t1 =>
    have hk1 : t1.Token ∉ [FalseToken, StringToken, NumberToken, LocalTimestampToken] :=
      hbad t1 h1
    simp only [List.mem_cons, List.mem_singleton, List.not_mem_nil, or_false] at hk1
    simp [consumeToken, cur, h1, hk1]

/-! ### `WITH TIME ZONE` and `DEFAULT` -/

theorem getElem?_eq_head?_of_drop {tokens : List Token} {j : Nat} {l : List Token}
    (h : tokens.drop j = l) : tokens[j]? = l.head? := by
  cases l with
  | nil =>
    rw [List.drop_eq_nil_iff] at h
    simp [List.getElem?_eq_none h]
  | cons t rest => simp [getElem?_of_drop h]

theorem openColumnTokens_append (table : Token) (name : String) (pre : List ColumnClause)
    (cname ctype : String) (cs : List Constraint) (tail : List Token) :
    openColumnTokens table name pre cname ctype cs ++ tail
      = table :: word name :: openingBracket ::
        (leadingColumnsTokens pre ++
          word cname :: word ctype :: (constraintsTokens cs ++ tail)) := by
  simp [openColumnTokens]

/-- On well-formed `TABLE name ( columns )`, every column clause has its declaration
among the children of the table declaration that `parseTable` returns. -/
theorem parseTable_column_decl (sh : Shared) (table : Token) (name : String)
    (cols : List ColumnClause) (c : ColumnClause) (fuel : Nat)
    (hbare : BareWords sh (tableTokens table name cols))
    (hwf : ∀ k ∈ cols, k.WellFormed sh)
    (hfuel : (tableTokens table name cols).length ≤ fuel) (hc : c ∈ cols) :
    parseTable sh fuel (tableTokens table name cols) 0
      = .ok (tableDeclOf table name cols, (tableTokens table name cols).length) ∧
    c.decl ∈ (tableDeclOf table name cols).Decl := by
  have h := parseTable_tableTokens sh _ hbare 0 table name cols [] (by simp) hwf fuel hfuel
  rw [Nat.zero_add] at h
  exact ⟨h, List.mem_cons_of_mem _ (List.mem_map_of_mem _ hc)⟩

theorem node_ne_with (cs : List Constraint) :
    ∀ d ∈ cs.filterMap Constraint.node, d.Token ≠ WithToken := by
  intro d hd
  obtain ⟨k, -, hk⟩ := List.mem_filterMap.1 hd
  cases k <;> simp [Constraint.node] at hk <;> subst hk <;> simp

/-- C7: (1) on well-formed `TABLE name ( columns )`, for every column clause with a
`WITH TIME ZONE` constraint (which well-formedness allows only when the lower-cased type
lexeme is `timestamp`), `parseTable` with enough fuel succeeds and the column declaration
has the type node as first child, the `WITH` node with `TIME` as only child and `ZONE` as
only child of `TIME` is a child of the type node, and no child of the column node after
the type is a `WITH` node. (2) If, after well-formed columns and constraint clauses, a
`WITH` follows a type whose lower-cased lexeme is `timestamp` and is not followed by
`TIME` then `ZONE`, `parseTable` with enough fuel returns an error. -/
theorem parseTable_withTimeZone (sh : Shared) (table : Token) (name : String)
    (cols : List ColumnClause) (c : ColumnClause) (w t z : String) (fuel : Nat)
    (pre : List ColumnClause) (cname ctype : String) (cs : List Constraint) (w1 : String)
    (rest : List Token) (fuel1 : Nat) :
    (BareWords sh (tableTokens table name cols) → (∀ k ∈ cols, k.WellFormed sh) →
      (tableTokens table name cols).length ≤ fuel → c ∈ cols →
      Constraint.withTimeZone w t z ∈ c.constraints →
      ∃ tableDecl j columnDecl typeDecl others,
        parseTable sh fuel (tableTokens table name cols) 0 = .ok (tableDecl, j) ∧
        columnDecl ∈ tableDecl.Decl ∧ columnDecl.Lexeme = c.name ∧
        columnDecl.Decl = typeDecl :: others ∧ typeDecl.Lexeme = c.type ∧
        ⟨WithToken, w, [⟨TimeToken, t, [⟨ZoneToken, z, []⟩]⟩]⟩ ∈ typeDecl.Decl ∧
        ∀ d ∈ others, d.Token ≠ WithToken) ∧
    (BareWords sh (openColumnTokens table name pre cname ctype cs ++ ⟨WithToken, w1⟩ :: rest) →
      (∀ k ∈ pre, k.WellFormed sh) → (∀ k ∈ cs, k.WellFormed sh ctype) →
      sh.toLower ctype = "timestamp" →
      (¬ ∃ t1 t2 rest1, rest = t1 :: t2 :: rest1 ∧ t1.Token = TimeToken ∧
        t2.Token = ZoneToken) →
      (openColumnTokens table name pre cname ctype cs ++ ⟨WithToken, w1⟩ :: rest).length
        ≤ fuel1 →
      ∃ e, parseTable sh fuel1
        (openColumnTokens table name pre cname ctype cs ++ ⟨WithToken, w1⟩ :: rest) 0
          = .error e) := by
  constructor
  · intro hbare hwf hfuel hc hw
    obtain ⟨hparse, hmem⟩ := parseTable_column_decl sh table name cols c fuel hbare hwf hfuel hc
    exact ⟨_, _, c.decl, _, _, hparse, hmem, rfl, rfl, rfl,
      List.mem_filterMap.2 ⟨_, hw, rfl⟩, node_ne_with c.constraints⟩
  · intro hbare hpre hcs hts hbad hfuel
    refine parseTable_error_in_column sh _ hbare 0 table name pre cname ctype cs
      (⟨WithToken, w1⟩ :: rest) (by rw [List.drop_zero, openColumnTokens_append]) (by simp)
      hpre hcs fuel1 (by simpa using hfuel) ?_
    intro n col j hj hlex
    have h0 := getElem?_of_drop hj
    have hd1 := drop_succ_of_drop hj
    refine constraintLoop_with_error sh col h0 rfl (by rw [hlex]; exact hts) ?_ n
    rintro ⟨t1, t2, h1, hk1, h2, hk2⟩
    apply hbad
    have e1 := List.drop_eq_getElem_cons (getElem?_lt_length h1)
    have e2 := List.drop_eq_getElem_cons (getElem?_lt_length h2)
    rw [List.getElem_eq_iff.2 h1] at e1
    rw [List.getElem_eq_iff.2 h2] at e2
    exact ⟨t1, t2, _, by rw [← hd1, e1, e2], hk1, hk2⟩

theorem sampleColumns_wellFormed : ∀ c ∈ sampleColumns, c.WellFormed bareShared := by
  intro c hc
  simp only [sampleColumns, List.mem_cons, List.mem_singleton, List.not_mem_nil,
    or_false] at hc
  rcases hc with rfl | rfl
  · intro k hk
    simp only [List.mem_cons, List.mem_singleton, List.not_mem_nil, or_false] at hk
    rcases hk with rfl | rfl <;> exact trivial
  · intro k hk
    simp only [List.mem_cons, List.mem_singleton, List.not_mem_nil, or_false] at hk
    rcases hk with rfl | rfl | rfl
    · show asciiLower "TimeStamp" = "timestamp"
      decide
    · show NumberToken ∈ defaultValueKinds
      decide
    · exact trivial

theorem timestampColumns_wellFormed : ∀ c ∈ timestampColumns, c.WellFormed bareShared := by
  intro c hc
  simp only [timestampColumns, List.mem_cons, List.mem_singleton, List.not_mem_nil,
    or_false] at hc
  rcases hc with rfl | rfl | rfl <;>
  · intro k hk
    simp only [List.mem_singleton] at hk
    subst hk
    show asciiLower _ = "timestamp"
    decide

/-- Witness of C7: `TABLE t ( a TIMESTAMP WITH TIME ZONE , b Timestamp WITH TIME ZONE ,
c timestamp WITH TIME ZONE )` parses, with the `WITH` chain of column `b` under its type
node; `TABLE t ( created TIMESTAMP WITH ZONE )` fails. -/
theorem parseTable_withTimeZone_witness :
    (∃ tableDecl j columnDecl typeDecl others,
      parseTable bareShared 30
          (tableTokens (keyword TableToken "TABLE") "t" timestampColumns) 0
        = .ok (tableDecl, j) ∧
      columnDecl ∈ tableDecl.Decl ∧ columnDecl.Lexeme = "b" ∧
      columnDecl.Decl = typeDecl :: others ∧ typeDecl.Lexeme = "Timestamp" ∧
      ⟨WithToken, "WITH", [⟨TimeToken, "TIME", [⟨ZoneToken, "ZONE", []⟩]⟩]⟩ ∈ typeDecl.Decl ∧
      ∀ d ∈ others, d.Token ≠ WithToken) ∧
    (∃ e, parseTable bareShared 20
        (openColumnTokens (keyword TableToken "TABLE") "t" [] "created" "TIMESTAMP" []
          ++ ⟨WithToken, "WITH"⟩ :: [keyword ZoneToken "ZONE", closingBracket]) 0
      = .error e) :=
  have h := parseTable_withTimeZone bareShared (keyword TableToken "TABLE") "t"
    timestampColumns ⟨"b", "Timestamp", [.withTimeZone "WITH" "TIME" "ZONE"]⟩
    "WITH" "TIME" "ZONE" 30 [] "created" "TIMESTAMP" [] "WITH"
    [keyword ZoneToken "ZONE", closingBracket] 20
  ⟨h.1 (bareShared_bareWords _) timestampColumns_wellFormed (by decide)
      (List.mem_cons_of_mem _ (List.mem_cons_self _ _)) (List.mem_singleton.2 rfl),
   h.2 (bareShared_bareWords _) (fun _ hk => nomatch hk) (fun _ hk => nomatch hk)
      (by decide)
      (by
        rintro ⟨t1, t2, rest1, hrest, hk1, -⟩
        simp only [List.cons.injEq] at hrest
        rw [← hrest.1] at hk1
        exact absurd hk1 (by decide))
      (by decide)⟩

/-- C10: (1) on well-formed `TABLE name ( columns )`, for every column clause with a
`DEFAULT` constraint (whose value token, by well-formedness, has kind `FALSE`, `STRING`,
`NUMBER` or `LOCALTIMESTAMP`), `parseTable` with enough fuel succeeds and the column
declaration has, after the type node, a `DEFAULT` child whose only child is the value
token. (2) If, after well-formed columns and constraint clauses, `DEFAULT` is the last
token or is followed by a token of any other kind, `parseTable` with enough fuel returns
an error. -/
theorem parseTable_default (sh : Shared) (table : Token) (name : String)
    (cols : List ColumnClause) (c : ColumnClause) (d : String) (v : Token) (fuel : Nat)
    (pre : List ColumnClause) (cname ctype : String) (cs : List Constraint) (d1 : String)
    (rest : List Token) (fuel1 : Nat) :
    (BareWords sh (tableTokens table name cols) → (∀ k ∈ cols, k.WellFormed sh) →
      (tableTokens table name cols).length ≤ fuel → c ∈ cols →
      Constraint.defaultValue d v ∈ c.constraints →
      v.Token ∈ defaultValueKinds ∧
      ∃ tableDecl j columnDecl typeDecl others,
        parseTable sh fuel (tableTokens table name cols) 0 = .ok (tableDecl, j) ∧
        columnDecl ∈ tableDecl.Decl ∧ columnDecl.Lexeme = c.name ∧
        columnDecl.Decl = typeDecl :: others ∧ typeDecl.Lexeme = c.type ∧
        ⟨DefaultToken, d, [⟨v.Token, v.Lexeme, []⟩]⟩ ∈ others) ∧
    (BareWords sh (openColumnTokens table name pre cname ctype cs ++ ⟨DefaultToken, d1⟩ :: rest) →
      (∀ k ∈ pre, k.WellFormed sh) → (∀ k ∈ cs, k.WellFormed sh ctype) →
      (rest = [] ∨ ∃ x rest1, rest = x :: rest1 ∧ x.Token ∉ defaultValueKinds) →
      (openColumnTokens table name pre cname ctype cs ++ ⟨DefaultToken, d1⟩ :: rest).length
        ≤ fuel1 →
      ∃ e, parseTable sh fuel1
        (openColumnTokens table name pre cname ctype cs ++ ⟨DefaultToken, d1⟩ :: rest) 0
          = .error e) := by
  constructor
  · intro hbare hwf hfuel hc hd
    obtain ⟨hparse, hmem⟩ := parseTable_column_decl sh table name cols c fuel hbare hwf hfuel hc
    exact ⟨hwf c hc _ hd, _, _, c.decl, _, _, hparse, hmem, rfl, rfl, rfl,
      List.mem_filterMap.2 ⟨_, hd, rfl⟩⟩
  · intro hbare hpre hcs hbad hfuel
    refine parseTable_error_in_column sh _ hbare 0 table name pre cname ctype cs
      (⟨DefaultToken, d1⟩ :: rest) (by rw [List.drop_zero, openColumnTokens_append]) (by simp)
      hpre hcs fuel1 (by simpa using hfuel) ?_
    intro n col j hj _
    have h0 := getElem?_of_drop hj
    have hd1 := drop_succ_of_drop hj
    refine constraintLoop_default_error sh col h0 rfl ?_ n
    intro t1 h1
    rw [getElem?_eq_head?_of_drop hd1] at h1
    rcases hbad with rfl | ⟨x, rest1, rfl, hx⟩
    · cases h1
    · simp only [List.head?_cons, Option.some.injEq] at h1
      rw [← h1]
      exact hx

/-- Witness of C10: `TABLE t ( id INT UNIQUE NOT NULL , ts TimeStamp WITH TIME ZONE
DEFAULT 1 PRIMARY KEY )` parses, with `DEFAULT` and its value `1` under column `ts`;
`TABLE t ( id INT DEFAULT + )` fails. -/
theorem parseTable_default_witness :
    (NumberToken ∈ defaultValueKinds ∧
      ∃ tableDecl j columnDecl typeDecl others,
        parseTable bareShared 30 (tableTokens (keyword TableToken "TABLE") "t" sampleColumns) 0
          = .ok (tableDecl, j) ∧
        columnDecl ∈ tableDecl.Decl ∧ columnDecl.Lexeme = "ts" ∧
        columnDecl.Decl = typeDecl :: others ∧ typeDecl.Lexeme = "TimeStamp" ∧
        ⟨DefaultToken, "DEFAULT", [⟨NumberToken, "1", []⟩]⟩ ∈ others) ∧
    (∃ e, parseTable bareShared 20
        (openColumnTokens (keyword TableToken "TABLE") "t" [] "id" "INT" []
          ++ ⟨DefaultToken, "DEFAULT"⟩ :: [keyword (Other 0) "+", closingBracket]) 0
      = .error e) :=
  have h := parseTable_default bareShared (keyword TableToken "TABLE") "t" sampleColumns
    ⟨"ts", "TimeStamp",
      [.withTimeZone "WITH" "TIME" "ZONE", .defaultValue "DEFAULT" ⟨NumberToken, "1"⟩,
       .primaryKey "PRIMARY" "KEY"]⟩
    "DEFAULT" ⟨NumberToken, "1"⟩ 30 [] "id" "INT" [] "DEFAULT"
    [keyword (Other 0) "+", closingBracket] 20
  ⟨h.1 (bareShared_bareWords _) sampleColumns_wellFormed (by decide)
      (List.mem_cons_of_mem _ (List.mem_cons_self _ _))
      (List.mem_cons_of_mem _ (List.mem_cons_self _ _)),
   h.2 (bareShared_bareWords _) (fun _ hk => nomatch hk) (fun _ hk => nomatch hk)
      (Or.inr ⟨_, _, rfl, by decide⟩) (by decide)⟩

/-! ### The error `MissingTableDefinition` -/

theorem NotMissing.bind {α β : Type} {r : Result α} {f : α → Result β}
    (hr : NotMissing r) (hf : ∀ a, NotMissing (f a)) : NotMissing (r.bind f) := by
  cases r with
  | ok a => exact hf a
  | error e =>
    intro h
    simp only [Result.error_bind, Result.error.injEq] at h
    exact hr (by rw [h])
  | panic => intro h; cases h
  | outOfFuel => intro h; cases h

theorem notMissing_ok {α : Type} (a : α) : NotMissing (Result.ok a) := by
  intro h; cases h

theorem notMissing_syntaxError {α : Type} (tokens : List Token) (i : Nat) :
    NotMissing (Result.error (syntaxError tokens i) : Result α) := by
  intro h; cases h

theorem notMissing_cur (tokens : List Token) (i : Nat) : NotMissing (cur tokens i) := by
  unfold cur
  split
  · exact notMissing_ok _
  · intro h; cases h

theorem notMissing_isNot (tokens : List Token) (i : Nat) (kinds : List TokenKind) :
    NotMissing (isNot tokens i kinds) :=
  NotMissing.bind (NotMissing.bind (notMissing_cur tokens i) fun _ => notMissing_ok _)
    fun _ => notMissing_ok _

theorem notMissing_consumeToken (tokens : List Token) (i : Nat) (kinds : List TokenKind) :
    NotMissing (consumeToken tokens i kinds) := by
  refine NotMissing.bind (notMissing_cur tokens i) fun t => ?_
  split
  · exact notMissing_ok _
  · exact notMissing_syntaxError tokens i

theorem notMissing_ofExcept {r : Except ParseError Decl × Nat}
    (h : r.1 ≠ .error missingTableDefinition) : NotMissing (Result.ofExcept r) := by
  rcases r with ⟨r, j⟩
  cases r with
  | ok a => exact notMissing_ok _
  | error e =>
    intro h'
    simp only [Result.ofExcept, Result.error.injEq] at h'
    exact h (by rw [h'])

theorem notMissing_unexpectedEnd {α : Type} :
    NotMissing (Result.error (.message "Unexpected end") : Result α) := by
  intro h
  simp only [missingTableDefinition, Result.error.injEq, ParseError.message.injEq] at h
  exact absurd h (by decide)

theorem notMissing_constraintLoop (sh : Shared) (tokens : List Token) :
    ∀ (fuel : Nat) (col : Column) (i : Nat), NotMissing (constraintLoop sh tokens fuel col i)
  | 0, _, _ => by intro h; cases h
  | n + 1, col, i => by
    have ih := notMissing_constraintLoop sh tokens n
    unfold constraintLoop
    refine NotMissing.bind (notMissing_isNot _ _ _) fun go => ?_
    split
    · exact notMissing_ok _
    · refine NotMissing.bind (notMissing_cur _ _) fun t => ?_
      split
      · exact NotMissing.bind (notMissing_consumeToken _ _ _) fun _ => ih _ _
      · split
        · exact NotMissing.bind (notMissing_consumeToken _ _ _) fun _ =>
            NotMissing.bind (notMissing_consumeToken _ _ _) fun _ => ih _ _
        · exact ih _ _
      · split
        · split
          · intro h; cases h
          · split
            · split
              · intro h; cases h
              · split
                · exact ih _ _
                · exact notMissing_unexpectedEnd
            · exact notMissing_unexpectedEnd
        · exact ih _ _
      · exact NotMissing.bind (notMissing_consumeToken _ _ _) fun _ => ih _ _
      · split
        · exact NotMissing.bind (notMissing_consumeToken _ _ _) fun _ =>
            NotMissing.bind (notMissing_consumeToken _ _ _) fun _ =>
              NotMissing.bind (notMissing_consumeToken _ _ _) fun _ => ih _ _
        · exact ih _ _
      · exact NotMissing.bind (notMissing_consumeToken _ _ _) fun _ =>
          NotMissing.bind (notMissing_consumeToken _ _ _) fun _ => ih _ _
      · exact notMissing_syntaxError _ _

theorem notMissing_primaryKeyLoop (sh : Shared) (tokens : List Token)
    (hsh : NoMissingTableDefinition sh tokens) :
    ∀ (fuel : Nat) (i : Nat), NotMissing (primaryKeyLoop sh tokens fuel i)
  | 0, _ => by intro h; cases h
  | n + 1, i => by
    have ih := notMissing_primaryKeyLoop sh tokens hsh n
    unfold primaryKeyLoop
    refine NotMissing.bind (notMissing_ofExcept (hsh i).1) fun ⟨_, j⟩ => ?_
    refine NotMissing.bind (notMissing_consumeToken _ _ _) fun ⟨d, k⟩ => ?_
    dsimp only
    split
    · exact notMissing_ok _
    · exact ih _

theorem notMissing_parsePrimaryKey (sh : Shared) (tokens : List Token)
    (hsh : NoMissingTableDefinition sh tokens) (fuel : Nat) (i : Nat) :
    NotMissing (parsePrimaryKey sh fuel tokens i) := by
  unfold parsePrimaryKey
  exact NotMissing.bind (notMissing_consumeToken _ _ _) fun _ =>
    NotMissing.bind (notMissing_consumeToken _ _ _) fun _ =>
      NotMissing.bind (notMissing_consumeToken _ _ _) fun _ =>
        NotMissing.bind (notMissing_primaryKeyLoop sh tokens hsh _ _) fun _ => notMissing_ok _

theorem notMissing_columnLoop (sh : Shared) (tokens : List Token)
    (hsh : NoMissingTableDefinition sh tokens) :
    ∀ (fuel : Nat) (tableDecl : Decl) (i : Nat),
      NotMissing (columnLoop sh tokens fuel tableDecl i)
  | 0, _, _ => by intro h; cases h
  | n + 1, tableDecl, i => by
    have ih := notMissing_columnLoop sh tokens hsh n
    unfold columnLoop
    split
    · refine NotMissing.bind (notMissing_cur _ _) fun t => ?_
      split
      · exact NotMissing.bind (notMissing_parsePrimaryKey sh tokens hsh _ _) fun _ => ih _ _
      · split
        · split <;> exact notMissing_ok _
        · refine NotMissing.bind (notMissing_ofExcept (hsh i).1) fun ⟨a, j⟩ => ?_
          refine NotMissing.bind (notMissing_ofExcept (hsh _).2) fun ⟨b, k⟩ => ?_
          refine NotMissing.bind (notMissing_constraintLoop sh tokens _ _ _) fun ⟨c, l⟩ => ?_
          dsimp only
          split
          · intro h; cases h
          · split
            · exact notMissing_ok _
            · exact ih _ _
    · exact notMissing_ok _

/-- C8 (amended): once `TABLE`, the optional `IF NOT EXISTS` and the table name have been
read, with the cursor then at `k`, `parseTable` fails with the error of line 78 if and
only if the token at `k` is not an opening bracket (or is absent) or no token follows it.
The shared column routines are assumed never to return that error themselves. -/
theorem parseTable_missingTableDefinition_iff (sh : Shared) (tokens : List Token)
    (fuel i : Nat) (t : Token) (tableDecl : Decl) (j : Nat) (nameTable : Decl) (k : Nat)
    (hsh : NoMissingTableDefinition sh tokens)
    (ht : tokens[i]? = some t)
    (hif : parseIfNotExists tokens (i + 1) (NewDecl t) = .ok (tableDecl, j))
    (hname : sh.parseAttribute tokens j = (.ok nameTable, k)) :
    parseTable sh fuel tokens i = .error missingTableDefinition ↔
      ((∀ b, tokens[k]? = some b → b.Token ≠ BracketOpeningToken) ∨ tokens.length ≤ k + 1) := by
  by_cases hlen : k + 1 < tokens.length
  · have hk : k < tokens.length := by omega
    have hle : ¬ tokens.length ≤ k + 1 := by omega
    have hb : tokens[k]? = some tokens[k] := List.getElem?_eq_getElem hk
    by_cases hkind : tokens[k].Token = BracketOpeningToken
    · have hL : parseTable sh fuel tokens i
          = columnLoop sh tokens fuel (tableDecl.Add nameTable) (k + 1) := by
        simp [parseTable, ht, hif, parseTableName, hname, expectTableDefinition, hasNext,
          hle, hb, hkind]
      rw [hL]
      constructor
      · intro h
        exact absurd h (notMissing_columnLoop sh tokens hsh fuel _ _)
      · rintro (h | h)
        · exact absurd hkind (h _ hb)
        · omega
    · have hL : parseTable sh fuel tokens i = .error missingTableDefinition := by
        simp [parseTable, ht, hif, parseTableName, hname, expectTableDefinition, hasNext,
          hle, hb, hkind]
      rw [hL]
      refine ⟨fun _ => Or.inl fun b hb1 => ?_, fun _ => rfl⟩
      rw [hb] at hb1
      cases hb1
      exact hkind
  · have hle : tokens.length ≤ k + 1 := by omega
    have hL : parseTable sh fuel tokens i = .error missingTableDefinition := by
      simp [parseTable, ht, hif, parseTableName, hname, expectTableDefinition, hasNext, hle]
    rw [hL]
    exact ⟨fun _ => Or.inr (by omega), fun _ => rfl⟩

/-- Witness of C8 (amended): `CREATE TABLE t id INT )` fails with the error of line 78,
for the token after the name is the word `id`. -/
theorem parseTable_missingTableDefinition_iff_witness :
    parseTable bareShared 10 bracketMissing 1 = .error missingTableDefinition :=
  (parseTable_missingTableDefinition_iff bareShared bracketMissing 10 1
    (keyword TableToken "TABLE") (NewDecl (keyword TableToken "TABLE")) 2
    (NewDecl (word "t")) 3
    (by
      intro i
      constructor <;>
      · simp only [bareShared, bareWord]
        split
        · split <;> simp [missingTableDefinition, syntaxError]
        · simp [missingTableDefinition])
    rfl rfl rfl).2
    (Or.inl (by
      intro b hb
      have hb' : b = word "id" := by
        have : bracketMissing[3]? = some (word "id") := rfl
        rw [this] at hb
        exact (Option.some.inj hb).symm
      rw [hb']
      decide))

/-- C8 (counterexample): in `CREATE TABLE t (` the token after the table name is an
opening bracket, yet `parseTable` fails with the error of line 78, because no token
follows the bracket. -/
theorem parseTable_bracketLast_missingTableDefinition :
    bracketLast[3]? = some openingBracket ∧
    parseTable bareShared 10 bracketLast 1 = .error missingTableDefinition :=
  ⟨rfl, rfl⟩

/-- C9 (the code at the failing input): on `CREATE TABLE IF t ( id INT )`, where `IF` is
followed by the word `t` and not by `NOT`, `parseTable` returns no `SyntaxError`: it
succeeds, with a childless `IF` node as first child of the table declaration. -/
theorem parseTable_if_without_not_succeeds :
    parseTable bareShared 10 ifWithoutNot 1
      = .ok (⟨TableToken, "TABLE",
              [⟨IfToken, "IF", []⟩, ⟨StringToken, "t", []⟩,
               ⟨StringToken, "id", [⟨StringToken, "INT", []⟩]⟩]⟩, 8) :=
  rfl

/-! ### `parseCreate` -/

theorem Result.bind_eq_ok {α β : Type} {r : Result α} {f : α → Result β} {b : β}
    (h : r.bind f = .ok b) : ∃ a, r = .ok a ∧ f a = .ok b := by
  cases r with
  | ok a => exact ⟨a, rfl, h⟩
  | error e => cases h
  | panic => cases h
  | outOfFuel => cases h

/-- C13: with `CREATE` at the cursor, `parseCreate` returns the error `CREATE token must be
followed by TABLE, INDEX` if no token follows, and the error `Parsing error near <lexeme>`
if the following token is not of kind `TABLE`; if it is of kind `TABLE`, `parseCreate`
returns an error exactly when `parseTable` does (the same error), and a result exactly when
`parseTable` does: the instruction with the `CREATE` node as only declaration and the
table declaration of `parseTable` as only child of that node. -/
theorem parseCreate_dispatch (sh : Shared) (fuel : Nat) (tokens : List Token) (index : Nat)
    (c : Token) (hc : tokens[index]? = some c) :
    (tokens[index + 1]? = none →
      parseCreate sh fuel tokens index
        = .error (.message "CREATE token must be followed by TABLE, INDEX")) ∧
    (∀ t, tokens[index + 1]? = some t → t.Token ≠ TableToken →
      parseCreate sh fuel tokens index
        = .error (.message ("Parsing error near <" ++ t.Lexeme ++ ">"))) ∧
    (∀ t, tokens[index + 1]? = some t → t.Token = TableToken →
      (∀ e, parseCreate sh fuel tokens index = .error e ↔
        parseTable sh fuel tokens (index + 1) = .error e) ∧
      (∀ i j, parseCreate sh fuel tokens index = .ok (i, j) ↔
        ∃ d, parseTable sh fuel tokens (index + 1) = .ok (d, j) ∧
          i.Decls = [⟨c.Token, c.Lexeme, [d]⟩])) := by
  refine ⟨fun hnone => ?_, fun t ht hkind => ?_, fun t ht hkind => ?_⟩
  · have hlen : ¬ index + 1 < tokens.length := by
      intro hlt
      rw [List.getElem?_eq_getElem hlt] at hnone
      cases hnone
    simp [parseCreate, hc, hasNext, hlen]
  · simp [parseCreate, hc, hasNext_of_getElem? ht, ht, hkind]
  · have hunfold : parseCreate sh fuel tokens index
        = (parseTable sh fuel tokens (index + 1)).bind fun r =>
            .ok (⟨[(NewDecl c).Add r.1]⟩, r.2) := by
      simp [parseCreate, hc, hasNext_of_getElem? ht, ht, hkind]
    rw [hunfold]
    constructor
    · intro e
      cases parseTable sh fuel tokens (index + 1) <;> simp
    · intro i j
      cases hres : parseTable sh fuel tokens (index + 1) with
      | ok r =>
        rcases r with ⟨d, j1⟩
        rcases i with ⟨decls⟩
        simp only [Result.ok_bind, Result.ok.injEq, Prod.mk.injEq, Instruction.mk.injEq,
          NewDecl, Decl.Add, List.nil_append]
        constructor
        · rintro ⟨h1, h2⟩
          exact ⟨d, ⟨rfl, h2⟩, h1.symm⟩
        · rintro ⟨d1, ⟨h1, h2⟩, h3⟩
          exact ⟨by rw [h3, h1], h2⟩
      | error e => simp
      | panic => simp
      | outOfFuel => simp

/-- Witness of C13: `CREATE` alone, `CREATE INDEX`, and `CREATE TABLE IF NOT t ( id
INT )`, on which `parseCreate` returns the `SyntaxError` at `t` exactly when `parseTable`
does. -/
theorem parseCreate_dispatch_witness :
    parseCreate bareShared 10 [keyword CreateToken "CREATE"] 0
      = .error (.message "CREATE token must be followed by TABLE, INDEX") ∧
    parseCreate bareShared 10 createIndex 0
      = .error (.message ("Parsing error near <" ++ (keyword (Other 1) "INDEX").Lexeme ++ ">")) ∧
    (parseCreate bareShared 10 ifNotWithoutExists 0 = .error (.syntaxError 4 "t") ↔
      parseTable bareShared 10 ifNotWithoutExists (0 + 1) = .error (.syntaxError 4 "t")) :=
  ⟨(parseCreate_dispatch bareShared 10 [keyword CreateToken "CREATE"] 0
      (keyword CreateToken "CREATE") rfl).1 rfl,
   (parseCreate_dispatch bareShared 10 createIndex 0 (keyword CreateToken "CREATE") rfl).2.1
      (keyword (Other 1) "INDEX") rfl (by decide),
   ((parseCreate_dispatch bareShared 10 ifNotWithoutExists 0 (keyword CreateToken "CREATE")
      rfl).2.2 (keyword TableToken "TABLE") rfl rfl).1 (.syntaxError 4 "t")⟩

/-! ### `parsePrimaryKey` -/

theorem primaryKeyLoop_names (sh : Shared) (tokens : List Token)
    (hbare : BareWords sh tokens) :
    ∀ (cs : List String) (c : String) (n i : Nat) (rest : List Token),
      tokens.drop i = keyNamesTokens c cs ++ rest →
      primaryKeyLoop sh tokens (cs.length + 1 + n) i
        = .ok (i + (keyNamesTokens c cs).length) := by
  intro cs
  induction cs with
  | nil =>
    intro c n i rest hdrop
    simp only [keyNamesTokens, List.cons_append, List.nil_append] at hdrop
    have h0 := getElem?_of_drop hdrop
    have hd1 := drop_succ_of_drop hdrop
    have h1 := getElem?_of_drop hd1
    have hq := (hbare i (word c) h0 rfl).2.1
    have hfuel : ([] : List String).length + 1 + n = n + 1 := by simp; omega
    rw [hfuel]
    simp [primaryKeyLoop, hq, Result.ofExcept,
      consumeToken_of_getElem? h1 (show closingBracket.Token ∈
        [CommaToken, BracketClosingToken] by simp [closingBracket]),
      NewDecl, closingBracket, keyNamesTokens]
  | cons c1 cs ih =>
    intro c n i rest hdrop
    simp only [keyNamesTokens, List.cons_append] at hdrop
    have h0 := getElem?_of_drop hdrop
    have hd1 := drop_succ_of_drop hdrop
    have h1 := getElem?_of_drop hd1
    have hd2 := drop_succ_of_drop hd1
    have hq := (hbare i (word c) h0 rfl).2.1
    have hfuel : (c1 :: cs).length + 1 + n = (cs.length + 1 + n) + 1 := by simp; omega
    have hstep : primaryKeyLoop sh tokens ((cs.length + 1 + n) + 1) i
        = primaryKeyLoop sh tokens (cs.length + 1 + n) (i + 1 + 1) := by
      simp [primaryKeyLoop, hq, Result.ofExcept,
        consumeToken_of_getElem? h1 (show comma.Token ∈
          [CommaToken, BracketClosingToken] by simp [comma]),
        NewDecl, comma]
    rw [hfuel, hstep, ih c1 n (i + 1 + 1) rest hd2]
    simp [keyNamesTokens]
    omega

/-- C12 (amended): on `PRIMARY KEY ( c , c1 , ... )` with at least one column name (bare
words that the shared routines read as such), `parsePrimaryKey` with enough fuel succeeds,
leaves the cursor behind the closing bracket and returns the `PRIMARY` declaration with
`KEY` as its only child; the column names are read and not kept. -/
theorem parsePrimaryKey_names (sh : Shared) (tokens : List Token) (i : Nat)
    (p k c : String) (cs : List String) (rest : List Token) (fuel : Nat)
    (hbare : BareWords sh tokens)
    (hdrop : tokens.drop i = primaryKeyTokens p k c cs ++ rest)
    (hfuel : cs.length + 1 ≤ fuel) :
    parsePrimaryKey sh fuel tokens i
      = .ok (⟨PrimaryToken, p, [⟨KeyToken, k, []⟩]⟩,
          i + (primaryKeyTokens p k c cs).length) := by
  simp only [primaryKeyTokens, List.cons_append] at hdrop
  have h0 := getElem?_of_drop hdrop
  have hd1 := drop_succ_of_drop hdrop
  have h1 := getElem?_of_drop hd1
  have hd2 := drop_succ_of_drop hd1
  have h2 := getElem?_of_drop hd2
  have hd3 := drop_succ_of_drop hd2
  obtain ⟨n, hn⟩ : ∃ n, fuel = cs.length + 1 + n := ⟨fuel - (cs.length + 1), by omega⟩
  have hloop := primaryKeyLoop_names sh tokens hbare cs c n (i + 1 + 1 + 1) rest hd3
  rw [← hn] at hloop
  simp only [parsePrimaryKey,
    consumeToken_of_getElem? h0 (List.mem_singleton.2 rfl),
    consumeToken_of_getElem? h1 (List.mem_singleton.2 rfl),
    consumeToken_of_getElem? h2 (show openingBracket.Token ∈ [BracketOpeningToken] by
      simp [openingBracket]),
    Result.ok_bind, hloop, NewDecl, Decl.Add, List.nil_append, primaryKeyTokens,
    List.length_cons]
  congr 2
  omega

/-- Witness of C12 (amended) on `PRIMARY KEY ( a , b )`. -/
theorem parsePrimaryKey_names_witness :
    parsePrimaryKey bareShared 10 (primaryKeyTokens "PRIMARY" "KEY" "a" ["b"]) 0
      = .ok (⟨PrimaryToken, "PRIMARY", [⟨KeyToken, "KEY", []⟩]⟩,
          0 + (primaryKeyTokens "PRIMARY" "KEY" "a" ["b"]).length) :=
  parsePrimaryKey_names bareShared (primaryKeyTokens "PRIMARY" "KEY" "a" ["b"]) 0
    "PRIMARY" "KEY" "a" ["b"] [] 10 (bareShared_bareWords _) (by simp) (by decide)

/-- C12 (counterexample): the declaration that `parsePrimaryKey` returns on `PRIMARY KEY
( a , b )` is `PRIMARY` with the single child `KEY`, which has no child: neither `a` nor
`b` is in the tree. -/
theorem parsePrimaryKey_drops_names :
    parsePrimaryKey bareShared 10 (primaryKeyTokens "PRIMARY" "KEY" "a" ["b"]) 0
      = .ok (⟨PrimaryToken, "PRIMARY", [⟨KeyToken, "KEY", []⟩]⟩, 7) :=
  rfl

/-! ### The end of the column list -/

/-- C18 (the code at the failing input): on `CREATE TABLE t ( a INT ,`, which ends after
a comma without any closing bracket, `parseTable` succeeds: after the comma the cursor is
at the end, the loop condition `p.index < len(tokens)` fails and the table declaration is
returned. The last token consumed is the comma. -/
theorem parseTable_trailing_comma_succeeds :
    trailingComma[6]? = some comma ∧
    parseTable bareShared 10 trailingComma 1
      = .ok (⟨TableToken, "TABLE",
              [⟨StringToken, "t", []⟩, ⟨StringToken, "a", [⟨StringToken, "INT", []⟩]⟩]⟩, 7) :=
  ⟨rfl, rfl⟩

/-! ### `IF NOT EXISTS` -/

/-- A table declaration returned by the column loop keeps the token, the lexeme and the
children it started with; columns are added behind them. -/
theorem columnLoop_children (sh : Shared) (tokens : List Token) :
    ∀ (fuel : Nat) (tableDecl : Decl) (i : Nat) (d : Decl) (j : Nat),
      columnLoop sh tokens fuel tableDecl i = .ok (d, j) →
      d.Token = tableDecl.Token ∧ d.Lexeme = tableDecl.Lexeme ∧
        ∃ extra, d.Decl = tableDecl.Decl ++ extra
  | 0, _, _, _, _ => by intro h; cases h
  | n + 1, tableDecl, i, d, j => by
    have ih := columnLoop_children sh tokens n
    intro h
    unfold columnLoop at h
    split at h
    · obtain ⟨t, -, h⟩ := Result.bind_eq_ok h
      split at h
      · obtain ⟨⟨_, k⟩, -, h⟩ := Result.bind_eq_ok h
        exact ih _ _ _ _ h
      · split at h
        · split at h <;>
          · simp only [Result.ok.injEq, Prod.mk.injEq] at h
            rw [← h.1]
            exact ⟨rfl, rfl, [], by simp⟩
        · obtain ⟨⟨a, j1⟩, -, h⟩ := Result.bind_eq_ok h
          obtain ⟨⟨b, j2⟩, -, h⟩ := Result.bind_eq_ok h
          obtain ⟨⟨c, l⟩, -, h⟩ := Result.bind_eq_ok h
          dsimp only at h
          split at h
          · cases h
          · split at h
            · simp only [Result.ok.injEq, Prod.mk.injEq] at h
              rw [← h.1]
              exact ⟨rfl, rfl, [c.decl], rfl⟩
            · obtain ⟨h1, h2, extra, h3⟩ := ih _ _ _ _ h
              exact ⟨h1, h2, c.decl :: extra, by rw [h3]; simp [Decl.Add]⟩
    · simp only [Result.ok.injEq, Prod.mk.injEq] at h
      rw [← h.1]
      exact ⟨rfl, rfl, [], by simp⟩

/-- C20: (1) when `TABLE` is followed by `IF`, `NOT`, `EXISTS` and `parseTable` succeeds,
the first child of the table declaration is the `IF` node, whose only child is the `NOT`
node, whose only child is the childless `EXISTS` node, and the second child is the table
name that `parseAttribute` read behind `EXISTS`. (2) When `TABLE` is followed by `IF`,
`NOT` and a token that is not `EXISTS`, `parseTable` fails with the `SyntaxError` at that
token. -/
theorem parseTable_ifNotExists (sh : Shared) (fuel : Nat) (tokens : List Token) (i : Nat)
    (table tIf tNot x : Token)
    (h0 : tokens[i]? = some table)
    (h1 : tokens[i + 1]? = some tIf) (hk1 : tIf.Token = IfToken)
    (h2 : tokens[i + 2]? = some tNot) (hk2 : tNot.Token = NotToken)
    (h3 : tokens[i + 3]? = some x) :
    (x.Token = ExistsToken → ∀ d j, parseTable sh fuel tokens i = .ok (d, j) →
      ∃ nameTable k others,
        sh.parseAttribute tokens (i + 4) = (.ok nameTable, k) ∧
        d.Decl = ⟨IfToken, tIf.Lexeme, [⟨NotToken, tNot.Lexeme,
            [⟨ExistsToken, x.Lexeme, []⟩]⟩]⟩ :: nameTable :: others) ∧
    (x.Token ≠ ExistsToken →
      parseTable sh fuel tokens i = .error (.syntaxError (i + 3) x.Lexeme)) := by
  have h2' : tokens[i + 1 + 1]? = some tNot := h2
  have h3' : tokens[i + 1 + 1 + 1]? = some x := h3
  constructor
  · intro hk3 d j hparse
    have hif : parseIfNotExists tokens (i + 1) (NewDecl table)
        = .ok ((NewDecl table).Add ((NewDecl tIf).Add ((NewDecl tNot).Add (NewDecl x))),
            i + 1 + 1 + 1 + 1) := by
      simp [parseIfNotExists, is_of_getElem? h1, hk1, consumeToken_of_getElem? h1,
        is_of_getElem? h2', hk2, consumeToken_of_getElem? h2', is_of_getElem? h3', hk3,
        consumeToken_of_getElem? h3']
    simp only [parseTable, h0, hif, Result.ok_bind] at hparse
    obtain ⟨⟨nameTable, k⟩, hname, hparse⟩ := Result.bind_eq_ok hparse
    obtain ⟨k1, -, hparse⟩ := Result.bind_eq_ok hparse
    obtain ⟨-, -, extra, hextra⟩ := columnLoop_children sh tokens _ _ _ _ _ hparse
    refine ⟨nameTable, k, extra, ?_, ?_⟩
    · unfold parseTableName at hname
      split at hname
      · rename_i nt idx heq
        simp only [Result.ok.injEq, Prod.mk.injEq] at hname
        rw [← hname.1, ← hname.2]
        exact heq
      · cases hname
    · rw [hextra]
      simp [Decl.Add, NewDecl, hk1, hk2, hk3]
  · intro hk3
    simp [parseTable, h0, parseIfNotExists, is_of_getElem? h1, hk1,
      consumeToken_of_getElem? h1, is_of_getElem? h2', hk2, consumeToken_of_getElem? h2',
      is_of_getElem? h3', hk3, syntaxError, h3']

/-- Witness of C20: `CREATE TABLE IF NOT EXISTS t ( id INT )` parses with the chain
`IF`, `NOT`, `EXISTS` as first child and `t` as second child, and `CREATE TABLE IF NOT t
( id INT )` fails with the `SyntaxError` at `t`. -/
theorem parseTable_ifNotExists_witness :
    (∃ nameTable k others,
        bareShared.parseAttribute ifNotExistsTokens (1 + 4) = (.ok nameTable, k) ∧
        (⟨TableToken, "TABLE",
          [⟨IfToken, "IF", [⟨NotToken, "NOT", [⟨ExistsToken, "EXISTS", []⟩]⟩]⟩,
           ⟨StringToken, "t", []⟩,
           ⟨StringToken, "id", [⟨StringToken, "INT", []⟩]⟩]⟩ : Parser.Decl).Decl
          = ⟨IfToken, (keyword IfToken "IF").Lexeme, [⟨NotToken, (keyword NotToken "NOT").Lexeme,
              [⟨ExistsToken, (keyword ExistsToken "EXISTS").Lexeme, []⟩]⟩]⟩
            :: nameTable :: others) ∧
    parseTable bareShared 10 ifNotWithoutExists 1
      = .error (.syntaxError (1 + 3) (word "t").Lexeme) :=
  ⟨(parseTable_ifNotExists bareShared 10 ifNotExistsTokens 1 (keyword TableToken "TABLE")
      (keyword IfToken "IF") (keyword NotToken "NOT") (keyword ExistsToken "EXISTS")
      rfl rfl rfl rfl rfl rfl).1 rfl _ 10 rfl,
   (parseTable_ifNotExists bareShared 10 ifNotWithoutExists 1 (keyword TableToken "TABLE")
      (keyword IfToken "IF") (keyword NotToken "NOT") (word "t")
      rfl rfl rfl rfl rfl rfl).2 (by decide)⟩

/-! ### Permuted constraint clauses -/

theorem neverOk_bind {α β : Type} {r : Result α} (hr : NeverOk r) (f : α → Result β) :
    NeverOk (r.bind f) := by
  intro b h
  obtain ⟨a, ha, -⟩ := Result.bind_eq_ok h
  exact hr a ha

theorem neverOk_outOfFuel {α : Type} : NeverOk (Result.outOfFuel : Result α) := by
  intro a h; cases h

theorem neverOk_error {α : Type} (e : ParseError) : NeverOk (Result.error e : Result α) := by
  intro a h; cases h

theorem constraintsTokens_append (cs1 cs2 : List Constraint) :
    constraintsTokens (cs1 ++ cs2) = constraintsTokens cs1 ++ constraintsTokens cs2 := by
  induction cs1 with
  | nil => rfl
  | cons c cs ih => simp [constraintsTokens, ih]

theorem length_constraintsTokens_perm {cs cs1 : List Constraint} (h : cs.Perm cs1) :
    (constraintsTokens cs).length = (constraintsTokens cs1).length := by
  induction h with
  | nil => rfl
  | cons c _ ih => simp [constraintsTokens, ih]
  | swap a b l => simp [constraintsTokens]; omega
  | trans _ _ ih1 ih2 => exact ih1.trans ih2

theorem sameUpToOrder_length_tokens {c c1 : ColumnClause} (h : SameUpToOrder c c1) :
    c.tokens.length = c1.tokens.length := by
  simp [ColumnClause.tokens, length_constraintsTokens_perm h.2.2]

theorem length_columnsTokens_perm {cols cols1 : List ColumnClause}
    (h : List.Forall₂ SameUpToOrder cols cols1) :
    (columnsTokens cols).length = (columnsTokens cols1).length := by
  induction h with
  | nil => rfl
  | cons hc hrest ih =>
    cases hrest with
    | nil => simp [columnsTokens, sameUpToOrder_length_tokens hc]
    | cons hc1 hrest1 =>
      simp only [columnsTokens, List.length_append, List.length_cons] at ih ⊢
      rw [sameUpToOrder_length_tokens hc, ih]

theorem SameUpToOrder.wellFormed_iff (sh : Shared) {c c1 : ColumnClause}
    (h : SameUpToOrder c c1) : c.WellFormed sh ↔ c1.WellFormed sh := by
  unfold ColumnClause.WellFormed
  rw [h.2.1]
  exact ⟨fun hw k hk => hw k (h.2.2.mem_iff.2 hk), fun hw k hk => hw k (h.2.2.mem_iff.1 hk)⟩

theorem wellFormed_iff_of_sameUpToOrder (sh : Shared) {cols cols1 : List ColumnClause}
    (h : List.Forall₂ SameUpToOrder cols cols1) :
    (∀ c ∈ cols, c.WellFormed sh) ↔ (∀ c ∈ cols1, c.WellFormed sh) := by
  induction h with
  | nil => simp
  | cons hc _ ih =>
    simp only [List.forall_mem_cons, hc.wellFormed_iff sh, ih]

theorem SameUpToOrder.declsAgree {c c1 : ColumnClause} (h : SameUpToOrder c c1) :
    DeclsAgree c.decl c1.decl := by
  obtain ⟨hn, ht, hp⟩ := h
  have hty := hp.filterMap Constraint.typeNode
  refine ⟨rfl, hn, _, _, _, _, rfl, rfl, rfl, ht, hty, ?_, hp.filterMap Constraint.node⟩
  intro hlen
  have heq : c.constraints.filterMap Constraint.typeNode
      = c1.constraints.filterMap Constraint.typeNode := by
    revert hlen hty
    generalize c.constraints.filterMap Constraint.typeNode = l
    generalize c1.constraints.filterMap Constraint.typeNode = l1
    intro hty hlen
    simp only at hlen
    match l, hlen with
    | [], _ => exact (List.Perm.nil_eq hty)
    | [a], _ => exact (List.perm_singleton.1 hty.symm).symm
  simp only [ColumnClause.decl, ht, heq]

theorem declsAgree_map {cols cols1 : List ColumnClause}
    (h : List.Forall₂ SameUpToOrder cols cols1) :
    List.Forall₂ DeclsAgree (cols.map ColumnClause.decl) (cols1.map ColumnClause.decl) := by
  induction h with
  | nil => exact List.Forall₂.nil
  | cons hc _ ih => exact List.Forall₂.cons hc.declsAgree ih

theorem constraintLoop_step (sh : Shared) (tokens : List Token) (c : Constraint)
    (n i : Nat) (col : Column) (rest : List Token)
    (hdrop : tokens.drop i = c.tokens ++ rest) (hrest : rest ≠ [])
    (hwf : c.WellFormed sh col.newAttributeType.Lexeme) :
    constraintLoop sh tokens (n + 1) col i
      = constraintLoop sh tokens n (col.extend [c]) (i + c.tokens.length) := by
  have h := constraintLoop_constraints sh tokens [c] n i col rest
    (by simpa [constraintsTokens] using hdrop) hrest
    (by intro k hk; rw [List.mem_singleton.1 hk]; exact hwf)
  simp only [List.length_singleton, constraintsTokens, List.append_nil] at h
  rw [Nat.add_comm 1 n] at h
  exact h

theorem Constraint.tokens_ne_nil (c : Constraint) : c.tokens ≠ [] := by
  cases c <;> simp [Constraint.tokens]

/-- With no more fuel than constraint clauses, the constraint loop is still running. -/
theorem constraintLoop_outOfFuel_of_le (sh : Shared) (tokens : List Token) :
    ∀ (cs : List Constraint) (n i : Nat) (col : Column) (rest : List Token),
      tokens.drop i = constraintsTokens cs ++ rest → rest ≠ [] →
      (∀ c ∈ cs, c.WellFormed sh col.newAttributeType.Lexeme) → n ≤ cs.length →
      constraintLoop sh tokens n col i = .outOfFuel := by
  intro cs
  induction cs with
  | nil =>
    intro n i col rest _ _ _ hn
    have : n = 0 := by simpa using hn
    subst this
    rfl
  | cons c cs ih =>
    intro n i col rest hdrop hrest hwf hn
    cases n with
    | zero => rfl
    | succ m =>
      have hdrop' : tokens.drop i = c.tokens ++ (constraintsTokens cs ++ rest) := by
        rw [hdrop]; simp [constraintsTokens]
      rw [constraintLoop_step sh tokens c m i col _ hdrop' (by simp [hrest])
        (hwf c (by simp))]
      exact ih m _ (col.extend [c]) rest (drop_add_of_drop hdrop') hrest
        (fun k hk => hwf k (by simp [hk])) (by simpa using hn)

/-- Well-formed constraint clauses in front of a place where the constraint loop never
returns a result. -/
theorem constraintLoop_neverOk_of_prefix (sh : Shared) (tokens : List Token) :
    ∀ (cs : List Constraint) (g i : Nat) (col : Column) (tail : List Token),
      tokens.drop i = constraintsTokens cs ++ tail → tail ≠ [] →
      (∀ c ∈ cs, c.WellFormed sh col.newAttributeType.Lexeme) →
      (∀ g1 col1, col1.newAttributeType.Lexeme = col.newAttributeType.Lexeme →
        NeverOk (constraintLoop sh tokens g1 col1 (i + (constraintsTokens cs).length))) →
      NeverOk (constraintLoop sh tokens g col i) := by
  intro cs
  induction cs with
  | nil =>
    intro g i col tail _ _ _ hbad
    exact hbad g col rfl
  | cons c cs ih =>
    intro g i col tail hdrop htail hwf hbad
    cases g with
    | zero => exact neverOk_outOfFuel
    | succ m =>
      have hdrop' : tokens.drop i = c.tokens ++ (constraintsTokens cs ++ tail) := by
        rw [hdrop]; simp [constraintsTokens]
      rw [constraintLoop_step sh tokens c m i col _ hdrop' (by simp [htail])
        (hwf c (by simp))]
      refine ih m _ (col.extend [c]) tail (drop_add_of_drop hdrop') htail
        (fun k hk => hwf k (by simp [hk])) ?_
      intro g1 col1 hcol1
      have hidx : i + c.tokens.length + (constraintsTokens cs).length
          = i + (constraintsTokens (c :: cs)).length := by
        simp [constraintsTokens]; omega
      rw [hidx]
      exact hbad g1 col1 hcol1

/-- At a constraint clause that is not well formed the constraint loop never returns a
result: it is still running at `WITH` after a type that is not `timestamp`, and it returns
an error at a `DEFAULT` without a value of one of the four kinds. -/
theorem constraintLoop_neverOk_at_bad (sh : Shared) (tokens : List Token) (k : Constraint)
    (col : Column) (j : Nat) (more : List Token)
    (hdrop : tokens.drop j = k.tokens ++ more)
    (hk : ¬ k.WellFormed sh col.newAttributeType.Lexeme) (g : Nat) :
    NeverOk (constraintLoop sh tokens g col j) := by
  cases k with
  | unique u => exact absurd trivial hk
  | notNull a b => exact absurd trivial hk
  | primaryKey a b => exact absurd trivial hk
  | autoincrement a => exact absurd trivial hk
  | withTimeZone a b z =>
    simp only [Constraint.tokens, List.cons_append] at hdrop
    rw [constraintLoop_stuck sh tokens col j _ (getElem?_of_drop hdrop)
      (Or.inr (Or.inr ⟨rfl, hk⟩)) g]
    exact neverOk_outOfFuel
  | defaultValue d v =>
    simp only [Constraint.tokens, List.cons_append, List.nil_append] at hdrop
    have h0 := getElem?_of_drop hdrop
    have h1 := getElem?_of_drop (drop_succ_of_drop hdrop)
    cases g with
    | zero => exact neverOk_outOfFuel
    | succ m =>
      obtain ⟨e, he⟩ := constraintLoop_default_error sh col h0 rfl
        (fun t1 ht1 => by
          rw [h1] at ht1
          cases ht1
          exact hk) m
      rw [he]
      exact neverOk_error e

theorem columnLoop_neverOk_of_constraintLoop (sh : Shared) (tokens : List Token)
    (tableDecl : Decl) (i : Nat) (t : Token) (a ty : Decl) (j k n : Nat)
    (hi : tokens[i]? = some t)
    (ht1 : t.Token ≠ PrimaryToken) (ht2 : t.Token ≠ BracketClosingToken)
    (ha : sh.parseQuotedToken tokens i = (.ok a, j))
    (hty : sh.parseType tokens j = (.ok ty, k))
    (hloop : NeverOk (constraintLoop sh tokens n ⟨a, ty, []⟩ k)) :
    NeverOk (columnLoop sh tokens (n + 1) tableDecl i) := by
  simp only [columnLoop, getElem?_lt_length hi, if_true, cur_of_getElem? hi, Result.ok_bind,
    if_neg ht1, if_neg ht2, ha, hty, Result.ofExcept]
  exact neverOk_bind hloop _

/-- Well-formed columns, each followed by a comma, in front of a column whose constraint
loop never returns a result. -/
theorem columnLoop_neverOk_of_leading (sh : Shared) (tokens : List Token)
    (hbare : BareWords sh tokens) (cname ctype : String) (more : List Token) :
    ∀ (pre : List ColumnClause) (f i : Nat) (tableDecl : Decl),
      tokens.drop i = leadingColumnsTokens pre ++ word cname :: word ctype :: more →
      (∀ c ∈ pre, c.WellFormed sh) →
      (∀ g, NeverOk (constraintLoop sh tokens g
        ⟨NewDecl (word cname), NewDecl (word ctype), []⟩
        (i + (leadingColumnsTokens pre).length + 1 + 1))) →
      NeverOk (columnLoop sh tokens f tableDecl i) := by
  intro pre
  induction pre with
  | nil =>
    intro f i tableDecl hdrop _ hbad
    simp only [leadingColumnsTokens, List.nil_append, List.length_nil, Nat.add_zero]
      at hdrop hbad
    cases f with
    | zero => exact neverOk_outOfFuel
    | succ n =>
      have h0 := getElem?_of_drop hdrop
      have h1 := getElem?_of_drop (drop_succ_of_drop hdrop)
      exact columnLoop_neverOk_of_constraintLoop sh tokens tableDecl i (word cname) _ _ _ _ n
        h0 (by simp [word]) (by simp [word]) (hbare i _ h0 rfl).2.1
        (hbare (i + 1) _ h1 rfl).2.2 (hbad n)
  | cons c cs ih =>
    intro f i tableDecl hdrop hwf hbad
    cases f with
    | zero => exact neverOk_outOfFuel
    | succ n =>
      have hdrop' : tokens.drop i = c.tokens ++ comma ::
          (leadingColumnsTokens cs ++ word cname :: word ctype :: more) := by
        rw [hdrop]; simp [leadingColumnsTokens]
      by_cases hn : c.constraints.length < n
      · have hstep := columnLoop_column sh tokens hbare c (hwf c (by simp)) n i tableDecl
          comma _ hdrop' (by simp [comma]) hn
        have hcomma : ¬ comma.Token = BracketClosingToken := by simp [comma]
        rw [if_neg hcomma] at hstep
        rw [hstep]
        refine ih n _ _ (drop_succ_of_drop (drop_add_of_drop hdrop'))
          (fun k hk => hwf k (by simp [hk])) ?_
        intro g
        have hidx : i + c.tokens.length + 1 + (leadingColumnsTokens cs).length + 1 + 1
            = i + (leadingColumnsTokens (c :: cs)).length + 1 + 1 := by
          simp [leadingColumnsTokens]; omega
        rw [hidx]
        exact hbad g
      · simp only [ColumnClause.tokens, List.cons_append] at hdrop'
        have h0 := getElem?_of_drop hdrop'
        have hd1 := drop_succ_of_drop hdrop'
        have h1 := getElem?_of_drop hd1
        have hd2 := drop_succ_of_drop hd1
        have hout := constraintLoop_outOfFuel_of_le sh tokens c.constraints n (i + 1 + 1)
          ⟨NewDecl (word c.name), NewDecl (word c.type), []⟩ _ hd2 (by simp)
          (hwf c (by simp)) (by omega)
        refine columnLoop_neverOk_of_constraintLoop sh tokens tableDecl i (word c.name)
          _ _ _ _ n h0 (by simp [word]) (by simp [word]) (hbare i _ h0 rfl).2.1
          (hbare (i + 1) _ h1 rfl).2.2 ?_
        rw [hout]
        exact neverOk_outOfFuel

theorem columnsTokens_cons (c : ColumnClause) (post : List ColumnClause) :
    ∃ tail, tail ≠ [] ∧ columnsTokens (c :: post) = c.tokens ++ tail := by
  cases post with
  | nil => exact ⟨[closingBracket], by simp, rfl⟩
  | cons c1 cs => exact ⟨comma :: columnsTokens (c1 :: cs), by simp, rfl⟩

theorem columnsTokens_append (pre : List ColumnClause) (c : ColumnClause)
    (post : List ColumnClause) :
    columnsTokens (pre ++ c :: post) = leadingColumnsTokens pre ++ columnsTokens (c :: post) := by
  induction pre with
  | nil => rfl
  | cons p ps ih =>
    cases ps with
    | nil => simp [columnsTokens, leadingColumnsTokens]
    | cons q qs =>
      simp only [List.cons_append] at ih ⊢
      simp [columnsTokens, leadingColumnsTokens, ih]

theorem exists_first_not {α : Type} (P : α → Prop) :
    ∀ l : List α, (¬ ∀ x ∈ l, P x) →
      ∃ pre x post, l = pre ++ x :: post ∧ (∀ y ∈ pre, P y) ∧ ¬ P x := by
  intro l
  induction l with
  | nil => intro h; exact absurd (fun x hx => by cases hx) h
  | cons a l ih =>
    intro h
    by_cases ha : P a
    · have hl : ¬ ∀ x ∈ l, P x := by
        intro hall
        apply h
        intro x hx
        rcases List.mem_cons.1 hx with rfl | hx'
        · exact ha
        · exact hall x hx'
      obtain ⟨pre, x, post, hl', hpre, hx⟩ := ih hl
      refine ⟨a :: pre, x, post, by simp [hl'], ?_, hx⟩
      intro y hy
      rcases List.mem_cons.1 hy with rfl | hy'
      · exact ha
      · exact hpre y hy'
    · exact ⟨[], a, l, rfl, (fun y hy => by cases hy), ha⟩

/-- On `TABLE name ( columns )`, if some constraint clause of some column is not well
formed, `parseTable` returns a result for no fuel. -/
theorem parseTable_neverOk_of_not_wellFormed (sh : Shared) (table : Token) (name : String)
    (cols : List ColumnClause) (hbare : BareWords sh (tableTokens table name cols))
    (hbad : ¬ ∀ c ∈ cols, c.WellFormed sh) (fuel : Nat) :
    NeverOk (parseTable sh fuel (tableTokens table name cols) 0) := by
  obtain ⟨pre, c, post, hcols, hpre, hc⟩ := exists_first_not _ cols hbad
  obtain ⟨cs1, k, cs2, hcs, hcs1, hk⟩ := exists_first_not _ c.constraints hc
  obtain ⟨tail, htail, hcons⟩ := columnsTokens_cons c post
  have htokens : tableTokens table name cols
      = table :: word name :: openingBracket ::
        (leadingColumnsTokens pre ++ word c.name :: word c.type ::
          (constraintsTokens cs1 ++ (k.tokens ++ (constraintsTokens cs2 ++ tail)))) := by
    rw [tableTokens, hcols, columnsTokens_append, hcons, ColumnClause.tokens, hcs,
      constraintsTokens_append]
    simp [constraintsTokens]
  have hdrop0 := (show (tableTokens table name cols).drop 0 = tableTokens table name cols
    from rfl).trans htokens
  rw [parseTable_header sh _ hbare 0 table name _ hdrop0 (by simp)]
  have hd3 := drop_succ_of_drop (drop_succ_of_drop (drop_succ_of_drop hdrop0))
  refine columnLoop_neverOk_of_leading sh _ hbare c.name c.type _ pre fuel _ _ hd3 hpre ?_
  intro g
  have hd4 := drop_succ_of_drop (drop_succ_of_drop (drop_add_of_drop hd3))
  refine constraintLoop_neverOk_of_prefix sh _ cs1 g _
    ⟨NewDecl (word c.name), NewDecl (word c.type), []⟩ _ hd4
    (by simp [Constraint.tokens_ne_nil]) hcs1 ?_
  intro g1 col1 hcol1
  refine constraintLoop_neverOk_at_bad sh _ k col1 _ _ (drop_add_of_drop hd4) ?_ g1
  rw [hcol1]
  exact hk

/-- What holds of the order of constraint clauses. Let two lists of column clauses agree
column by column in name and type and have constraint clauses that are permutations of each
other. On `TABLE name ( columns )`:
(1) if the clauses are well formed, `parseTable` with enough fuel succeeds on both
sequences, and the column declarations agree pairwise: same lexeme, the type as first
child with the same lexeme and the same children up to order (the very same type child
when it has at most one `WITH` chain), and the same constraint subtrees up to order;
(2) if some clause is not well formed, `parseTable` returns a declaration on neither
sequence, whatever the fuel. Part (2) does not say that both parses fail: one may return an
error while the other never returns, as on `id INT DEFAULT NULL WITH TIME ZONE` and `id INT
WITH TIME ZONE DEFAULT NULL`. -/
theorem parseTable_constraint_order (sh : Shared) (table : Token) (name : String)
    (cols cols1 : List ColumnClause) (fuel : Nat)
    (hperm : List.Forall₂ SameUpToOrder cols cols1)
    (hbare : BareWords sh (tableTokens table name cols))
    (hbare1 : BareWords sh (tableTokens table name cols1)) :
    ((∀ c ∈ cols, c.WellFormed sh) → (tableTokens table name cols).length ≤ fuel →
      ∃ ds ds1 j j1,
        parseTable sh fuel (tableTokens table name cols) 0
          = .ok (⟨table.Token, table.Lexeme, ⟨StringToken, name, []⟩ :: ds⟩, j) ∧
        parseTable sh fuel (tableTokens table name cols1) 0
          = .ok (⟨table.Token, table.Lexeme, ⟨StringToken, name, []⟩ :: ds1⟩, j1) ∧
        List.Forall₂ DeclsAgree ds ds1) ∧
    ((¬ ∀ c ∈ cols, c.WellFormed sh) →
      NeverOk (parseTable sh fuel (tableTokens table name cols) 0) ∧
      NeverOk (parseTable sh fuel (tableTokens table name cols1) 0)) := by
  constructor
  · intro hwf hfuel
    have hwf1 := (wellFormed_iff_of_sameUpToOrder sh hperm).1 hwf
    have hlen : (tableTokens table name cols1).length = (tableTokens table name cols).length := by
      simp [tableTokens, length_columnsTokens_perm hperm]
    have h := parseTable_tableTokens sh _ hbare 0 table name cols [] (by simp) hwf fuel hfuel
    have h1 := parseTable_tableTokens sh _ hbare1 0 table name cols1 [] (by simp) hwf1 fuel
      (by rw [hlen]; exact hfuel)
    exact ⟨_, _, _, _, h, h1, declsAgree_map hperm⟩
  · intro hbad
    exact ⟨parseTable_neverOk_of_not_wellFormed sh table name cols hbare hbad fuel,
      parseTable_neverOk_of_not_wellFormed sh table name cols1 hbare1
        (fun h => hbad ((wellFormed_iff_of_sameUpToOrder sh hperm).2 h)) fuel⟩

/-- An instance of `parseTable_constraint_order`: `TABLE t ( id INT UNIQUE NOT NULL )` and
`TABLE t ( id INT NOT NULL UNIQUE )` both parse, with column declarations that agree up to
order; `TABLE t ( id INT WITH TIME ZONE UNIQUE )` and `TABLE t ( id INT UNIQUE WITH TIME
ZONE )` both return no declaration. -/
theorem parseTable_constraint_order_witness :
    (∃ ds ds1 j j1,
        parseTable bareShared 20 (tableTokens (keyword TableToken "TABLE") "t" uniqueNotNull) 0
          = .ok (⟨TableToken, "TABLE", ⟨StringToken, "t", []⟩ :: ds⟩, j) ∧
        parseTable bareShared 20 (tableTokens (keyword TableToken "TABLE") "t" notNullUnique) 0
          = .ok (⟨TableToken, "TABLE", ⟨StringToken, "t", []⟩ :: ds1⟩, j1) ∧
        List.Forall₂ DeclsAgree ds ds1) ∧
    (NeverOk (parseTable bareShared 20
        (tableTokens (keyword TableToken "TABLE") "t" withThenUnique) 0) ∧
      NeverOk (parseTable bareShared 20
        (tableTokens (keyword TableToken "TABLE") "t" uniqueThenWith) 0)) :=
  ⟨(parseTable_constraint_order bareShared (keyword TableToken "TABLE") "t" uniqueNotNull
      notNullUnique 20 (List.Forall₂.cons ⟨rfl, rfl, List.Perm.swap _ _ _⟩ List.Forall₂.nil)
      (bareShared_bareWords _) (bareShared_bareWords _)).1
      (by
        intro c hc
        simp only [uniqueNotNull, List.mem_singleton] at hc
        subst hc
        intro k hk
        simp only [List.mem_cons, List.mem_singleton, List.not_mem_nil, or_false] at hk
        rcases hk with rfl | rfl <;> exact trivial)
      (by decide),
   (parseTable_constraint_order bareShared (keyword TableToken "TABLE") "t" withThenUnique
      uniqueThenWith 20 (List.Forall₂.cons ⟨rfl, rfl, List.Perm.swap _ _ _⟩ List.Forall₂.nil)
      (bareShared_bareWords _) (bareShared_bareWords _)).2
      (by
        intro h
        have hbad := h ⟨"id", "INT", [.withTimeZone "WITH" "TIME" "ZONE", .unique "UNIQUE"]⟩
          (List.mem_singleton.2 rfl) (.withTimeZone "WITH" "TIME" "ZONE") (by simp)
        have hne : asciiLower "INT" ≠ "timestamp" := by decide
        exact hne hbad)⟩

/-- C11 (the code at the failing input): the column clauses `id INT DEFAULT NULL WITH TIME
ZONE` and `id INT WITH TIME ZONE DEFAULT NULL` have the same name, the same type and the
same constraint clauses in another order. On `CREATE TABLE t ( ... )`, with the cursor on
`TABLE`, `parseTable` fails on the first with the `SyntaxError` of `consumeToken` at `NULL`
(position 7), for every fuel of at least two; on the second it does not fail, and returns
nothing else: whatever the fuel, the constraint loop is still running at `WITH`, which the
`WITH` case leaves in place when the type is not `timestamp`. -/
theorem parseTable_constraint_order_changes_outcome :
    List.Forall₂ SameUpToOrder defaultThenWith withThenDefault ∧
    (∀ fuel, parseTable bareShared (fuel + 2) (createTableTokens defaultThenWith) 1
      = .error (.syntaxError 7 "NULL")) ∧
    (∀ fuel, parseTable bareShared fuel (createTableTokens withThenDefault) 1
      = .outOfFuel) := by
  refine ⟨List.Forall₂.cons ⟨rfl, rfl, List.Perm.swap _ _ _⟩ List.Forall₂.nil, ?_, ?_⟩
  · intro fuel
    rfl
  · intro fuel
    have hhead : parseTable bareShared fuel (createTableTokens withThenDefault) 1
        = columnLoop bareShared (createTableTokens withThenDefault) fuel
            ((NewDecl (keyword TableToken "TABLE")).Add (NewDecl (word "t"))) 4 := rfl
    rw [hhead]
    exact columnLoop_outOfFuel_of_constraintLoop bareShared (createTableTokens withThenDefault)
      _ 4 (word "id") (NewDecl (word "id")) (NewDecl (word "INT")) 5 6 rfl (by decide)
      (by decide) rfl rfl
      (constraintLoop_stuck bareShared (createTableTokens withThenDefault) _ 6
        (keyword WithToken "WITH") rfl (Or.inr (Or.inr ⟨rfl, by decide⟩))) fuel

end Parser

end Ramsql
